import Mathlib

/-!
Verification of the trust and integrity subsystem of the ptd repository
(portable tournament data): canonical serialization of envelopes and
manifests, Ed25519 signing and verification, package hash checking, and
ULID-based identifier generation.  Go structures and functions are
shallowly embedded as Lean definitions; external libraries
(encoding/json, encoding/base64, crypto/ed25519, crypto/sha256,
oklog/ulid) are modelled by executable Lean functions that follow the
observable behaviour the code relies on.
-/

namespace Ptd

/-! ## JSON rendering (model of encoding/json marshaling)

Go json.Marshal renders struct fields in declaration order, map keys in
sorted order, and escapes strings (including the HTML escapes for the
angle brackets and ampersand that encoding/json applies by default).
-/

/-- Hexadecimal digit character, lower case, as used by Go hex encoding. -/
def hexChar (n : Nat) : Char :=
  if n < 10 then Char.ofNat (48 + n) else Char.ofNat (87 + n)

/-- Escape of a single character inside a JSON string, as Go encoding/json
does by default: quote, backslash, newline, carriage return, tab, other
control characters, and the HTML-escaped characters. -/
def jsonEscapeChar (c : Char) : List Char :=
  if c = '"' then ['\\', '"']
  else if c = '\\' then ['\\', '\\']
  else if c = '\n' then ['\\', 'n']
  else if c = '\r' then ['\\', 'r']
  else if c = '\t' then ['\\', 't']
  else if c.toNat < 32 then ['\\', 'u', '0', '0', hexChar (c.toNat / 16), hexChar (c.toNat % 16)]
  else if c = '<' then ['\\', 'u', '0', '0', '3', 'c']
  else if c = '>' then ['\\', 'u', '0', '0', '3', 'e']
  else if c = '&' then ['\\', 'u', '0', '0', '2', '6']
  else [c]

/-- JSON string literal for a Go string value. -/
def jsonQuote (s : String) : String :=
  "\"" ++ String.mk (s.data.map jsonEscapeChar).flatten ++ "\""

/-- Insertion of a rendered key-value pair into a key-sorted list. -/
def insertPair (p : String × String) : List (String × String) → List (String × String)
  | [] => [p]
  | q :: rest => if p.1 ≤ q.1 then p :: q :: rest else q :: insertPair p rest

/-- Sort rendered key-value pairs by key, modelling the sorted-key map
rendering of Go json.Marshal. -/
def sortPairs : List (String × String) → List (String × String)
  | [] => []
  | p :: rest => insertPair p (sortPairs rest)

/-- Rendered JSON object body from already-rendered key-value pairs. -/
def objBody (ps : List (String × String)) : String :=
  String.intercalate "," (ps.map (fun p => jsonQuote p.1 ++ ":" ++ p.2))

/-- JSON values, modelling the open interface-typed data that can occur in
the generic payloads and vendor extension maps of the Go code.  Numbers
are modelled as integers. -/
inductive Jval where
  | null : Jval
  | bool (b : Bool) : Jval
  | num (n : Int) : Jval
  | str (s : String) : Jval
  | arr (xs : List Jval) : Jval
  | obj (fields : List (String × Jval)) : Jval

mutual

/-- Rendering of a JSON value, as Go json.Marshal renders the
corresponding interface value: arrays in order, object keys sorted. -/
def Jval.render : Jval → String
  | .null => "null"
  | .bool true => "true"
  | .bool false => "false"
  | .num n => toString n
  | .str s => jsonQuote s
  | .arr xs => "[" ++ String.intercalate "," (Jval.renderList xs) ++ "]"
  | .obj fs => "\x7b" ++ objBody (sortPairs (Jval.renderFields fs)) ++ "\x7d"

/-- Rendering of a list of JSON values. -/
def Jval.renderList : List Jval → List String
  | [] => []
  | x :: xs => Jval.render x :: Jval.renderList xs

/-- Rendering of the fields of a JSON object. -/
def Jval.renderFields : List (String × Jval) → List (String × String)
  | [] => []
  | kv :: rest => (kv.1, Jval.render kv.2) :: Jval.renderFields rest

end

/-! ## Data model (envelope.go)

Time values are modelled as their RFC 3339 rendering, a string.
-/

/-- Signature contains digital signature information (envelope.go). -/
structure Signature where
  algorithm : String
  publicKeyID : String
  signature : String
  signedAt : String
  signedBy : String
  deriving DecidableEq, Repr

/-- Transform represents a data transformation (envelope.go). -/
structure Transform where
  type : String
  description : String
  appliedAt : String
  appliedBy : String
  deriving DecidableEq, Repr

/-- Provenance tracks the origin and history of the data (envelope.go). -/
structure Provenance where
  originalSource : String
  importedFrom : String
  importedAt : Option String
  transformations : List Transform
  deriving DecidableEq, Repr

/-- Meta contains metadata about the entity (envelope.go). -/
structure Meta where
  schema : String
  version : Int
  createdAt : String
  updatedAt : String
  source : String
  tags : List String
  extensions : List (String × Jval)
  signature : Option Signature
  provenance : Option Provenance

/-- Envelope is the universal wrapper for all PTD entities (envelope.go).
The generic payload is modelled as a JSON value. -/
structure Envelope where
  id : String
  type : String
  spec : Jval
  meta : Meta

/-- Rendering of a Signature value, fields in Go declaration order with
their json tags. -/
def renderSignature (s : Signature) : String :=
  "\x7b\"algorithm\":" ++ jsonQuote s.algorithm ++
  ",\"public_key_id\":" ++ jsonQuote s.publicKeyID ++
  ",\"signature\":" ++ jsonQuote s.signature ++
  ",\"signed_at\":" ++ jsonQuote s.signedAt ++
  ",\"signed_by\":" ++ jsonQuote s.signedBy ++ "\x7d"

/-- Rendering of a Transform value. -/
def renderTransform (t : Transform) : String :=
  "\x7b\"type\":" ++ jsonQuote t.type ++
  ",\"description\":" ++ jsonQuote t.description ++
  ",\"applied_at\":" ++ jsonQuote t.appliedAt ++
  ",\"applied_by\":" ++ jsonQuote t.appliedBy ++ "\x7d"

/-- Rendering of a Provenance value with its omitempty fields. -/
def renderProvenance (p : Provenance) : String :=
  "\x7b\"original_source\":" ++ jsonQuote p.originalSource ++
  (if p.importedFrom = "" then "" else ",\"imported_from\":" ++ jsonQuote p.importedFrom) ++
  (match p.importedAt with
   | none => ""
   | some t => ",\"imported_at\":" ++ jsonQuote t) ++
  (if p.transformations.isEmpty then ""
   else ",\"transformations\":[" ++
        String.intercalate "," (p.transformations.map renderTransform) ++ "]") ++
  "\x7d"

/-- Rendering of the Meta struct, fields in Go declaration order, the
optional fields carrying the omitempty json tag omitted when empty. -/
def renderMeta (m : Meta) : String :=
  "\x7b\"schema\":" ++ jsonQuote m.schema ++
  ",\"version\":" ++ toString m.version ++
  ",\"created_at\":" ++ jsonQuote m.createdAt ++
  ",\"updated_at\":" ++ jsonQuote m.updatedAt ++
  ",\"source\":" ++ jsonQuote m.source ++
  (if m.tags.isEmpty then ""
   else ",\"tags\":[" ++ String.intercalate "," (m.tags.map jsonQuote) ++ "]") ++
  (if m.extensions.isEmpty then ""
   else ",\"extensions\":\x7b" ++
        objBody (sortPairs (Jval.renderFields m.extensions)) ++ "\x7d") ++
  (match m.signature with
   | none => ""
   | some s => ",\"signature\":" ++ renderSignature s) ++
  (match m.provenance with
   | none => ""
   | some p => ",\"provenance\":" ++ renderProvenance p) ++
  "\x7d"

/-- Rendering of an Envelope, modelling json.Marshal of the Go struct. -/
def jsonEnvelope (e : Envelope) : String :=
  "\x7b\"id\":" ++ jsonQuote e.id ++
  ",\"type\":" ++ jsonQuote e.type ++
  ",\"spec\":" ++ e.spec.render ++
  ",\"meta\":" ++ renderMeta e.meta ++ "\x7d"

/-- CanonicalJSON returns the canonical JSON representation for signing
(envelope.go, lines 58-69): a copy of the envelope whose signature field
is cleared when present, passed to deterministic JSON encoding. -/
def Envelope.canonicalJSON (e : Envelope) : String :=
  let temp :=
    if e.meta.signature.isSome then
      { e with meta := { e.meta with signature := none } }
    else e
  jsonEnvelope temp

/-- Attachment of a signature to the metadata of an envelope, modelling
attachSignature in signature.go (lines 93-134) for the envelope types it
matches directly: the Meta.Signature field is set. -/
def withSignature (e : Envelope) (s : Signature) : Envelope :=
  { e with meta := { e.meta with signature := some s } }

/-- An envelope carrying no signature: the Meta.Signature field cleared. -/
def withoutSignature (e : Envelope) : Envelope :=
  { e with meta := { e.meta with signature := none } }

/-! ## Base64 (model of encoding/base64 StdEncoding)

Bytes are modelled as natural numbers below 256.  Encoding follows the
standard alphabet with padding.  Decoding processes four-character
quanta, accepts padding only at the end of the input, and (like the Go
StdEncoding decoder) does not reject non-zero trailing bits.
-/

/-- Character of the standard base64 alphabet at index d (d below 64). -/
def b64Char (d : Nat) : Char :=
  if d < 26 then Char.ofNat (65 + d)
  else if d < 52 then Char.ofNat (71 + d)
  else if d < 62 then Char.ofNat (d - 4)
  else if d = 62 then '+'
  else '/'

/-- Index of a character in the standard base64 alphabet, none for a
character outside the alphabet. -/
def b64DecChar (c : Char) : Option Nat :=
  let n := c.toNat
  if 65 ≤ n ∧ n ≤ 90 then some (n - 65)
  else if 97 ≤ n ∧ n ≤ 122 then some (n - 71)
  else if 48 ≤ n ∧ n ≤ 57 then some (n + 4)
  else if n = 43 then some 62
  else if n = 47 then some 63
  else none

/-- Base64 encoding of a byte list, with padding. -/
def b64Encode : List Nat → List Char
  | [] => []
  | [a] => [b64Char (a / 4), b64Char (a % 4 * 16), '=', '=']
  | [a, b] => [b64Char (a / 4), b64Char (a % 4 * 16 + b / 16), b64Char (b % 16 * 4), '=']
  | a :: b :: c :: rest =>
    b64Char (a / 4) :: b64Char (a % 4 * 16 + b / 16) ::
    b64Char (b % 16 * 4 + c / 64) :: b64Char (c % 64) :: b64Encode rest

/-- Base64 decoding of a character list; none on malformed input. -/
def b64DecodeChars : List Char → Option (List Nat)
  | [] => some []
  | c0 :: c1 :: c2 :: c3 :: rest =>
    match b64DecChar c0, b64DecChar c1 with
    | some d0, some d1 =>
      if c2 = '=' then
        if c3 = '=' ∧ rest = [] then some [d0 * 4 + d1 / 16] else none
      else
        match b64DecChar c2 with
        | some d2 =>
          if c3 = '=' then
            if rest = [] then some [d0 * 4 + d1 / 16, d1 % 16 * 16 + d2 / 4] else none
          else
            match b64DecChar c3 with
            | some d3 =>
              match b64DecodeChars rest with
              | some bs =>
                some ((d0 * 4 + d1 / 16) :: (d1 % 16 * 16 + d2 / 4) :: (d2 % 4 * 64 + d3) :: bs)
              | none => none
            | none => none
        | none => none
    | _, _ => none
  | _ => none

/-- DecodeString of the Go StdEncoding, over the model byte type. -/
def b64Decode (s : String) : Option (List Nat) :=
  b64DecodeChars s.data

/-! ## Byte sequences (UTF-8 and fixed-width naturals) -/

/-- UTF-8 encoding of a single character, as Go produces for the bytes of
a string. -/
def utf8Bytes (c : Char) : List Nat :=
  let n := c.toNat
  if n < 128 then [n]
  else if n < 2048 then [192 + n / 64, 128 + n % 64]
  else if n < 65536 then [224 + n / 4096, 128 + n / 64 % 64, 128 + n % 64]
  else [240 + n / 262144, 128 + n / 4096 % 64, 128 + n / 64 % 64, 128 + n % 64]

/-- Byte content of a Go string (UTF-8). -/
def strBytes (s : String) : List Nat :=
  (s.data.map utf8Bytes).flatten

/-- Little-endian byte rendering of a natural number, k bytes wide. -/
def natToBytesLE : Nat → Nat → List Nat
  | 0, _ => []
  | k + 1, n => n % 256 :: natToBytesLE k (n / 256)

/-- Natural number denoted by a little-endian byte list. -/
def bytesToNatLE : List Nat → Nat
  | [] => 0
  | b :: rest => b + 256 * bytesToNatLE rest

/-! ## Ed25519 (symbolic model of crypto/ed25519)

A keypair is identified by a 32-byte seed value; the public key is the
same identifier.  A signature over a message is modelled as the 32 key
bytes followed by the message bytes, and verification checks a candidate
signature for exactly that shape with the verifying key.  This captures
the two properties the code relies on: a signature verifies under the
matching public key, and fails under any other key or on any other
message. -/

/-- Byte form of an Ed25519 key (model). -/
def keyBytes (seed : Nat) : List Nat := natToBytesLE 32 seed

/-- Ed25519 signing over the bytes of a message string (model). -/
def ed25519Sign (seed : Nat) (msg : String) : List Nat :=
  keyBytes seed ++ strBytes msg

/-- Ed25519 verification of a candidate signature byte list (model). -/
def ed25519Verify (pubSeed : Nat) (msg : String) (sig : List Nat) : Bool :=
  sig == ed25519Sign pubSeed msg

/-! ## Signer, Sign and Verify (signature.go) -/

/-- Error kinds of the repository (errors referenced from id.go,
signature.go, package.go; the sentinel declarations themselves are not
under src, so the kinds are modelled from the spec error taxonomy plus
the two dynamically built errors of package.go). -/
inductive PTDError where
  | invalidID : PTDError
  | invalidType : PTDError
  | missingSchema : PTDError
  | signatureMissing : PTDError
  | signatureInvalid : PTDError
  | signatureFailed : PTDError
  | signatureKeyMissing : PTDError
  | manifestMissing : PTDError
  | manifestInvalid : PTDError
  | hashMismatch (file : String) : PTDError
  | unexpectedFile (file : String) : PTDError
  | other (msg : String) : PTDError
  deriving DecidableEq, Repr

/-- Signer holds an Ed25519 keypair (identified by its seed in the
symbolic model), a signing-key identifier, and a signer identity
(signature.go, lines 12-18). -/
structure Signer where
  seed : Nat
  publicKeyID : String
  signedBy : String
  deriving DecidableEq, Repr

/-- Sign (signature.go, lines 56-90): compute the canonical JSON of the
envelope, sign those bytes, base64-encode the signature, and attach a new
Signature with algorithm ed25519, the key id, the current time, and the
signer identity.  For the envelope types matched directly by
attachSignature this always succeeds; the current time is passed in as
the signing timestamp. -/
def Signer.sign (s : Signer) (now : String) (e : Envelope) : Envelope :=
  let canonical := e.canonicalJSON
  let signature := ed25519Sign s.seed canonical
  let signatureB64 := String.mk (b64Encode signature)
  withSignature e
    (Signature.mk "ed25519" s.publicKeyID signatureB64 now s.signedBy)

/-- Extraction of the signature from an envelope, modelling
extractSignature (signature.go, lines 200-243) for the directly matched
envelope types. -/
def extractSignature (e : Envelope) : Option Signature :=
  e.meta.signature

/-- Verify (signature.go, lines 137-176): extract the signature, failing
with SignatureMissing when absent; recompute the canonical JSON;
base64-decode the stored signature string, failing with SignatureInvalid
when it does not decode; check the decoded bytes cryptographically,
failing with SignatureFailed when the check fails. -/
def verify (e : Envelope) (publicKey : Nat) : Except PTDError Unit :=
  match extractSignature e with
  | none => .error .signatureMissing
  | some sig =>
    let canonical := e.canonicalJSON
    match b64Decode sig.signature with
    | none => .error .signatureInvalid
    | some signatureBytes =>
      if ed25519Verify publicKey canonical signatureBytes then .ok ()
      else .error .signatureFailed

/-- Replacement of the stored signature string of a signed envelope by
the same string with its last character replaced by c, modelling the
corruption of the last character of the base64 signature text. -/
def corruptSigLast (e : Envelope) (c : Char) : Envelope :=
  match e.meta.signature with
  | none => e
  | some sig =>
    withSignature e
      { sig with signature := String.mk (sig.signature.data.dropLast ++ [c]) }

/-! ## Package and manifest (package.go) -/

/-- FileEntry describes a file in the package (package.go). -/
structure FileEntry where
  path : String
  size : Int
  hash : String
  modified : String
  type : String
  deriving DecidableEq, Repr

/-- EntityCount tracks the number of entities by type (package.go). -/
structure EntityCount where
  type : String
  count : Int
  deriving DecidableEq, Repr

/-- Manifest describes the contents of a PTD package (package.go).  The
Files and Entities maps are modelled as association lists with unique
keys. -/
structure Manifest where
  version : String
  created : String
  creator : String
  description : String
  files : List (String × FileEntry)
  entities : List (String × EntityCount)
  signature : Option Signature
  deriving DecidableEq, Repr

/-- Rendering of an EntityCount value. -/
def renderEntityCount (e : EntityCount) : String :=
  "\x7b\"type\":" ++ jsonQuote e.type ++ ",\"count\":" ++ toString e.count ++ "\x7d"

/-- Rendering of the entities map, keys sorted. -/
def renderEntities (es : List (String × EntityCount)) : String :=
  "\x7b" ++ objBody (sortPairs (es.map (fun kv => (kv.1, renderEntityCount kv.2)))) ++ "\x7d"

/-- CanonicalJSON of a manifest (package.go, lines 39-47): a copy with
the Signature field cleared (omitted by its omitempty tag) and the Files
map set to nil (marshalled as null), passed to deterministic JSON
encoding; fields render in Go declaration order. -/
def Manifest.canonicalJSON (m : Manifest) : String :=
  "\x7b\"version\":" ++ jsonQuote m.version ++
  ",\"created\":" ++ jsonQuote m.created ++
  ",\"creator\":" ++ jsonQuote m.creator ++
  ",\"description\":" ++ jsonQuote m.description ++
  ",\"files\":null,\"entities\":" ++ renderEntities m.entities ++ "\x7d"

/-- Package represents a PTD package (package.go).  The random package ID
and the temporary directory of the Go struct play no part in the claims
and are omitted; Created and Version are carried as in OpenPackage. -/
structure Package where
  created : String
  version : String
  manifest : Manifest
  deriving DecidableEq, Repr

/-- SignPackage (package.go, lines 336-363): sign the canonical JSON of
the manifest and attach the resulting Signature to the manifest.  The
current time is passed in as the signing timestamp. -/
def Package.signPackage (p : Package) (signer : Signer) (now : String) : Package :=
  let canonical := p.manifest.canonicalJSON
  let sigBytes := ed25519Sign signer.seed canonical
  let signatureB64 := String.mk (b64Encode sigBytes)
  let sig := Signature.mk "ed25519" signer.publicKeyID signatureB64 now signer.signedBy
  { p with manifest := { p.manifest with signature := some sig } }

/-- Replacement of the file table of the manifest of a package. -/
def Package.setFiles (p : Package) (files : List (String × FileEntry)) : Package :=
  { p with manifest := { p.manifest with files := files } }

/-- VerifyPackageSignature (package.go, lines 366-399): fail with
SignatureMissing when the manifest carries no signature; recompute the
canonical JSON; base64-decode the stored signature, failing with
SignatureInvalid when it does not decode; check the decoded bytes
cryptographically, failing with SignatureFailed when the check fails. -/
def Package.verifyPackageSignature (p : Package) (publicKey : Nat) :
    Except PTDError Unit :=
  match p.manifest.signature with
  | none => .error .signatureMissing
  | some sig =>
    let canonical := p.manifest.canonicalJSON
    match b64Decode sig.signature with
    | none => .error .signatureInvalid
    | some signatureBytes =>
      if ed25519Verify publicKey canonical signatureBytes then .ok ()
      else .error .signatureFailed

/-- Hexadecimal digits of a natural number, k digits wide, most
significant first. -/
def hexDigits : Nat → Nat → List Char
  | 0, _ => []
  | k + 1, v => hexChar (v / 16 ^ k % 16) :: hexDigits k (v % 16 ^ k)

/-- Modelled from the external crypto/sha256 library: the hex-encoded
content digest of a byte list.  The model is a deterministic executable
stand-in (a polynomial accumulator reduced to 256 bits, hex-encoded to
the 64 lower-case digits Go produces); the claims about hash checking
depend only on the digest being a function of the content. -/
def sha256Hex (data : List Nat) : String :=
  String.mk (hexDigits 64
    (List.foldl (fun acc b => (acc * 257 + b + 1) % 2 ^ 256) 0 data))

/-- Lookup of a path in the file table of a manifest, modelling the Go
map access manifest.Files[name]. -/
def filesLookup (name : String) : List (String × FileEntry) → Option FileEntry
  | [] => none
  | kv :: rest => if kv.1 = name then some kv.2 else filesLookup name rest

/-- Bytes of the first archive entry named manifest.json, modelling the
manifest-search loop of OpenPackage (package.go, lines 252-273). -/
def findManifestBytes : List (String × List Nat) → Option (List Nat)
  | [] => none
  | (name, data) :: rest =>
    if name = "manifest.json" then some data else findManifestBytes rest

/-- Hash-validation loop of OpenPackage (package.go, lines 279-306): walk
the archive entries in order, skip manifest.json, fail on the first entry
with no file-table entry (unexpected file) or whose recomputed content
hash differs from the recorded hash (HashMismatch). -/
def checkFiles (m : Manifest) : List (String × List Nat) → Option PTDError
  | [] => none
  | (name, data) :: rest =>
    if name = "manifest.json" then checkFiles m rest
    else
      match filesLookup name m.files with
      | none => some (.unexpectedFile name)
      | some entry =>
        if sha256Hex data ≠ entry.hash then some (.hashMismatch name)
        else checkFiles m rest

/-- OpenPackage (package.go, lines 244-316): an archive is modelled as
its list of named entries; the JSON decoding of the manifest bytes is a
parameter (it is glue provided by encoding/json).  Fail with
ManifestMissing when no entry is named manifest.json, propagate a parse
failure, validate file hashes, and otherwise return the package built
from the manifest. -/
def openPackage (parseManifest : List Nat → Option Manifest)
    (entries : List (String × List Nat)) : Except PTDError Package :=
  match findManifestBytes entries with
  | none => .error .manifestMissing
  | some mb =>
    match parseManifest mb with
    | none => .error (.other "failed to parse manifest")
    | some manifest =>
      match checkFiles manifest entries with
      | some e => .error e
      | none => .ok (Package.mk manifest.created manifest.version manifest)

/-! ## Concrete archives used by the open-phase counterexamples and
witnesses -/

/-- Concrete manifest listing one file a.json with a recorded hash that
matches no content. -/
def cex3Manifest : Manifest :=
  Manifest.mk "1.0.0" "t" "c" "d"
    [("a.json", FileEntry.mk "a.json" 1 "ffff" "t" "application/json")] [] none

/-- Concrete manifest parse function recognising the byte list of the
concrete manifest. -/
def cex3Parse : List Nat → Option Manifest :=
  fun b => if b = [0] then some cex3Manifest else none

/-- Concrete archive: manifest, an unlisted file, then the listed file
with mismatching content. -/
def cex3Entries : List (String × List Nat) :=
  [("manifest.json", [0]), ("rogue", [1]), ("a.json", [2])]

/-- Concrete archive with every present file listed and one hash
mismatch. -/
def wit3Entries : List (String × List Nat) :=
  [("manifest.json", [0]), ("a.json", [2])]

/-- Concrete manifest for the open-phase asymmetry claim: lists b.json
with an unmatched hash and also lists a file absent from the concrete
archives. -/
def cex5Manifest : Manifest :=
  Manifest.mk "1.0.0" "t" "c" "d"
    [("b.json", FileEntry.mk "b.json" 1 "eeee" "t" "application/json"),
     ("absent.json", FileEntry.mk "absent.json" 1 "dddd" "t" "application/json")]
    [] none

/-- Concrete manifest parse function for the asymmetry claim. -/
def cex5Parse : List Nat → Option Manifest :=
  fun b => if b = [9] then some cex5Manifest else none

/-- Concrete archive: manifest, the listed file with mismatching content
first, then an unlisted file. -/
def cex5Entries : List (String × List Nat) :=
  [("manifest.json", [9]), ("b.json", [5]), ("rogue2", [1])]

/-- Concrete manifest whose b.json entry records the model hash of the
byte 5, so that the archive below verifies. -/
def wit5Manifest : Manifest :=
  Manifest.mk "1.0.0" "t" "c" "d"
    [("b.json", FileEntry.mk "b.json" 1 (sha256Hex [5]) "t" "application/json"),
     ("absent.json", FileEntry.mk "absent.json" 1 "dddd" "t" "application/json")]
    [] none

/-- Concrete manifest parse function returning the verifying manifest. -/
def wit5Parse : List Nat → Option Manifest :=
  fun b => if b = [9] then some wit5Manifest else none

/-- Concrete archive whose present files all match, while the manifest
lists a file that is absent. -/
def wit5Entries : List (String × List Nat) :=
  [("manifest.json", [9]), ("b.json", [5])]

/-- Concrete archive containing an unlisted file and no other offence,
for the unexpected-file half of the asymmetry claim. -/
def wit5EntriesUnexpected : List (String × List Nat) :=
  [("manifest.json", [9]), ("b.json", [5]), ("rogue2", [1])]

/-! ## Identifier generation (id.go, with the oklog/ulid library
modelled)

A ULID is the Crockford base32 rendering, 26 characters, of the 128-bit
value formed by a 48-bit millisecond timestamp followed by 80 bits of
entropy.  The generator state holds the last timestamp and entropy; the
randomness consumed by a call (the fresh entropy draw and the positive
monotonic increment) is passed in as parameters, and the current time as
the now parameter.
-/

/-- Character of the Crockford base32 alphabet at index d (d below 32):
the digits followed by the upper-case letters with I, L, O, U omitted. -/
def crockfordChar (d : Nat) : Char :=
  if d < 10 then Char.ofNat (48 + d)
  else if d < 18 then Char.ofNat (55 + d)
  else if d < 20 then Char.ofNat (56 + d)
  else if d < 22 then Char.ofNat (57 + d)
  else if d < 27 then Char.ofNat (58 + d)
  else Char.ofNat (59 + d)

/-- Lower-casing of an ASCII character, as strings.ToLower acts on the
characters of a ULID. -/
def toLowerChar (c : Char) : Char :=
  if 65 ≤ c.toNat ∧ c.toNat ≤ 90 then Char.ofNat (c.toNat + 32) else c

/-- Lower-casing of a string (model of strings.ToLower on ASCII data). -/
def strToLower (s : String) : String :=
  String.mk (s.data.map toLowerChar)

/-- Fixed-width base32 rendering of a natural number, most significant
digit first, through the given digit-to-character map. -/
def b32EncodeWith (f : Nat → Char) : Nat → Nat → List Char
  | 0, _ => []
  | k + 1, v => f (v / 32 ^ k % 32) :: b32EncodeWith f k (v % 32 ^ k)

/-- The 26 characters of the canonical (upper-case) ULID rendering of a
128-bit value, as ulid.ULID.String produces. -/
def ulidChars (v : Nat) : List Char :=
  b32EncodeWith crockfordChar 26 v

/-- Value of a character under the case-insensitive Crockford base32
decoding table of the ulid library; none for a character outside the
alphabet. -/
def ulidDecChar (c : Char) : Option Nat :=
  let n := c.toNat
  if 48 ≤ n ∧ n ≤ 57 then some (n - 48)
  else if 65 ≤ n ∧ n ≤ 72 then some (n - 55)
  else if 74 ≤ n ∧ n ≤ 75 then some (n - 56)
  else if 77 ≤ n ∧ n ≤ 78 then some (n - 57)
  else if 80 ≤ n ∧ n ≤ 84 then some (n - 58)
  else if 86 ≤ n ∧ n ≤ 90 then some (n - 59)
  else if 97 ≤ n ∧ n ≤ 104 then some (n - 87)
  else if 106 ≤ n ∧ n ≤ 107 then some (n - 88)
  else if 109 ≤ n ∧ n ≤ 110 then some (n - 89)
  else if 112 ≤ n ∧ n ≤ 116 then some (n - 90)
  else if 118 ≤ n ∧ n ≤ 122 then some (n - 91)
  else none

/-- IsULID (id.go, lines 65-68) checks whether a string parses under
ulid.ParseStrict: exactly 26 characters, every character in the
(case-insensitive) decoding table, and a first character no greater than
the digit 7 (the 48-bit timestamp overflow check of the library). -/
def IsULID (s : String) : Bool :=
  decide (s.data.length = 26) &&
  s.data.all (fun c => (ulidDecChar c).isSome) &&
  (match s.data with
   | [] => false
   | c :: _ => decide (c.toNat ≤ 55))

/-- Internal state of an IDGenerator: the timestamp and entropy of the
monotonic entropy source (oklog/ulid MonotonicEntropy; an entropy of zero
plays the role of the unseeded state, as in the library IsZero check). -/
structure GenState where
  lastMs : Nat
  lastEntropy : Nat
  deriving DecidableEq, Repr

/-- State of a freshly constructed IDGenerator (NewIDGenerator, id.go
lines 20-24). -/
def initGenState : GenState := GenState.mk 0 0

/-- One read of the monotonic entropy source followed by ULID assembly
(ulid.MustNew with a MonotonicEntropy): within the same millisecond as
the previous seeded call the entropy is the previous entropy plus the
positive random increment incr, otherwise it is the fresh random draw;
the result is the 128-bit ULID value together with the new state. -/
def genStep (st : GenState) (now fresh incr : Nat) : Nat × GenState :=
  if st.lastEntropy ≠ 0 ∧ now = st.lastMs then
    let e := st.lastEntropy + incr
    (now * 2 ^ 80 + e, GenState.mk st.lastMs e)
  else
    (now * 2 ^ 80 + fresh, GenState.mk now fresh)

/-- GenerateULID (id.go, lines 36-42): the canonical ULID string of one
generator step. -/
def GenerateULID (st : GenState) (now fresh incr : Nat) : String × GenState :=
  let r := genStep st now fresh incr
  (String.mk (ulidChars r.1), r.2)

/-- GenerateID (id.go, lines 27-33): the string ptd:TYPE:RAW where RAW is
the lower-cased ULID of one generator step. -/
def GenerateID (st : GenState) (entityType : String) (now fresh incr : Nat) :
    String × GenState :=
  let r := genStep st now fresh incr
  ("ptd:" ++ entityType ++ ":" ++ String.mk ((ulidChars r.1).map toLowerChar), r.2)

/-- ULID strings of a sequence of GenerateULID calls on one generator. -/
def runGen (st : GenState) : List (Nat × Nat × Nat) → List String
  | [] => []
  | (now, fresh, incr) :: rest =>
    String.mk (ulidChars (genStep st now fresh incr).1) ::
      runGen (genStep st now fresh incr).2 rest

/-- The 128-bit ULID values of a sequence of calls. -/
def runValues (st : GenState) : List (Nat × Nat × Nat) → List Nat
  | [] => []
  | (now, fresh, incr) :: rest =>
    (genStep st now fresh incr).1 :: runValues (genStep st now fresh incr).2 rest

/-- Environment assumptions for a run of the generator: the clock does
not go backwards, timestamps fit in 48 bits, the random draws are
positive and fit in 80 bits, the increments are positive, and the
entropy never overflows 80 bits (on overflow the Go code panics in
MustNew rather than return an identifier). -/
def runOk (st : GenState) : List (Nat × Nat × Nat) → Bool
  | [] => true
  | (now, fresh, incr) :: rest =>
    decide (st.lastMs ≤ now) && decide (now < 2 ^ 48) &&
    decide (0 < fresh) && decide (fresh < 2 ^ 80) && decide (0 < incr) &&
    decide ((genStep st now fresh incr).2.lastEntropy < 2 ^ 80) &&
    runOk (genStep st now fresh incr).2 rest

/-- The 128-bit value recorded by a generator state. -/
def stateValue (st : GenState) : Nat :=
  st.lastMs * 2 ^ 80 + st.lastEntropy

/-- Split of a character list at every colon, modelling
strings.Split(id, ":") (id.go, line 46). -/
def splitColon : List Char → List (List Char)
  | [] => [[]]
  | c :: rest =>
    if c = ':' then [] :: splitColon rest
    else
      match splitColon rest with
      | [] => [[c]]
      | p :: ps => (c :: p) :: ps

/-- Concatenation of parts with colons between them, the inverse of
splitColon. -/
def joinColon : List (List Char) → List Char
  | [] => []
  | [x] => x
  | x :: xs => x ++ ':' :: joinColon xs

/-- ParseID (id.go, lines 45-56): split on colons; fail with InvalidID
unless there are exactly three parts; fail with InvalidID unless the
first part is ptd; otherwise return the three components. -/
def ParseID (id : String) : Except PTDError (String × String × String) :=
  match splitColon id.data with
  | [p, t, r] =>
    if String.mk p ≠ "ptd" then .error .invalidID
    else .ok (String.mk p, String.mk t, String.mk r)
  | _ => .error .invalidID

/-- ValidateID (id.go, lines 59-62): whether ParseID succeeds. -/
def ValidateID (id : String) : Bool :=
  match ParseID id with
  | .ok _ => true
  | .error _ => false

/-- Concrete generator inputs with two calls in the same millisecond,
used by the C7 witness. -/
def wit7Inputs : List (Nat × Nat × Nat) := [(5, 7, 1), (5, 99, 3), (6, 2, 1)]

/-- Concrete sample envelope used by witness instantiations. -/
def sampleEnvelope : Envelope :=
  Envelope.mk "ptd:tournament:01abc" "tournament" (Jval.str "Test")
    (Meta.mk "ptd.v1.tournament@1.0.0" 1 "2024-01-01T00:00:00Z"
      "2024-01-01T00:00:00Z" "test" [] [] none none)

/-- Concrete signer for the C6 witness. -/
def wit6Signer : Signer := Signer.mk 1 "kid6" "wendy"

/-- Concrete signed envelope for the C6 witness. -/
def wit6Envelope : Envelope := wit6Signer.sign "t6" sampleEnvelope

/-- The signature attached to the concrete signed envelope. -/
def wit6Sig : Signature :=
  Signature.mk "ed25519" "kid6"
    (String.mk (b64Encode (ed25519Sign 1 sampleEnvelope.canonicalJSON)))
    "t6" "wendy"

/-! ## Helper lemmas: base64 and byte sequences -/

/-- Decoding a character of the base64 alphabet recovers its index. -/
theorem b64DecChar_b64Char : ∀ d : Nat, d < 64 → b64DecChar (b64Char d) = some d := by
  decide

/-- Characters of the base64 alphabet are not the padding character. -/
theorem b64Char_ne_pad : ∀ d : Nat, d < 64 → b64Char d ≠ '=' := by
  decide

/-- A character decoded by the base64 alphabet is the alphabet character
of its index. -/
theorem b64DecChar_inj (c : Char) (d : Nat) (h : b64DecChar c = some d) :
    c = b64Char d := by
  have hc : Char.ofNat c.toNat = c := Char.ofNat_toNat c
  simp only [b64DecChar] at h
  split_ifs at h with h1 h2 h3 h4 h5 <;>
    simp only [Option.some.injEq] at h <;> subst h <;> simp only [b64Char]
  · rw [if_pos (by omega)]
    rw [show 65 + (c.toNat - 65) = c.toNat by omega, hc]
  · rw [if_neg (by omega), if_pos (by omega)]
    rw [show 71 + (c.toNat - 71) = c.toNat by omega, hc]
  · rw [if_neg (by omega), if_neg (by omega), if_pos (by omega)]
    rw [show c.toNat + 4 - 4 = c.toNat by omega, hc]
  · have hcv : c = Char.ofNat 43 := by rw [← h4, hc]
    rw [hcv]
    decide
  · have hcv : c = Char.ofNat 47 := by rw [← h5, hc]
    rw [hcv]
    decide

/-- Base64 decoding inverts base64 encoding on byte lists. -/
theorem b64_roundtrip : ∀ bs : List Nat, (∀ b ∈ bs, b < 256) →
    b64DecodeChars (b64Encode bs) = some bs
  | [], _ => rfl
  | [a], h => by
    have ha : a < 256 := h a (by simp)
    have h0 := b64DecChar_b64Char (a / 4) (by omega)
    have h1 := b64DecChar_b64Char (a % 4 * 16) (by omega)
    simp [b64Encode, b64DecodeChars, h0, h1]
    omega
  | [a, b], h => by
    have ha : a < 256 := h a (by simp)
    have hb : b < 256 := h b (by simp)
    have h0 := b64DecChar_b64Char (a / 4) (by omega)
    have h1 := b64DecChar_b64Char (a % 4 * 16 + b / 16) (by omega)
    have h2 := b64DecChar_b64Char (b % 16 * 4) (by omega)
    have hne := b64Char_ne_pad (b % 16 * 4) (by omega)
    simp [b64Encode, b64DecodeChars, h0, h1, h2, hne]
    omega
  | a :: b :: c :: rest, h => by
    have ha : a < 256 := h a (by simp)
    have hb : b < 256 := h b (by simp)
    have hc : c < 256 := h c (by simp)
    have h0 := b64DecChar_b64Char (a / 4) (by omega)
    have h1 := b64DecChar_b64Char (a % 4 * 16 + b / 16) (by omega)
    have h2 := b64DecChar_b64Char (b % 16 * 4 + c / 64) (by omega)
    have h3 := b64DecChar_b64Char (c % 64) (by omega)
    have hne2 := b64Char_ne_pad (b % 16 * 4 + c / 64) (by omega)
    have hne3 := b64Char_ne_pad (c % 64) (by omega)
    have ih := b64_roundtrip rest (fun x hx => h x (by simp [hx]))
    match hrest : rest with
    | [] =>
      simp [b64Encode, b64DecodeChars, h0, h1, h2, h3, hne2, hne3]
      refine ⟨by omega, by omega, by omega⟩
    | r :: rs =>
      simp only [b64Encode, b64DecodeChars, h0, h1, h2, h3]
      rw [if_neg hne2, if_neg hne3]
      simp [ih]
      refine ⟨by omega, by omega, by omega⟩

/-- Every byte produced by the UTF-8 encoding of a character is below
256. -/
theorem utf8Bytes_lt (c : Char) : ∀ b ∈ utf8Bytes c, b < 256 := by
  have hv : c.toNat < 1114112 := by
    have := c.valid
    rcases this with h | h
    · exact Nat.lt_trans (by exact_mod_cast h) (by norm_num)
    · exact_mod_cast h.2
  intro b hb
  simp only [utf8Bytes] at hb
  split_ifs at hb <;> simp at hb <;> omega

/-- Every byte of the byte content of a string is below 256. -/
theorem strBytes_lt (s : String) : ∀ b ∈ strBytes s, b < 256 := by
  intro b hb
  simp only [strBytes, List.mem_flatten] at hb
  obtain ⟨l, hl, hbl⟩ := hb
  simp only [List.mem_map] at hl
  obtain ⟨c, _, rfl⟩ := hl
  exact utf8Bytes_lt c b hbl

/-- Every byte of the byte form of a key is below 256. -/
theorem keyBytes_lt (seed : Nat) : ∀ b ∈ keyBytes seed, b < 256 := by
  have : ∀ k n : Nat, ∀ b ∈ natToBytesLE k n, b < 256 := by
    intro k
    induction k with
    | zero => intro n b hb; simp [natToBytesLE] at hb
    | succ k ih =>
      intro n b hb
      simp only [natToBytesLE, List.mem_cons] at hb
      rcases hb with rfl | hb
      · omega
      · exact ih _ b hb
  exact this 32 seed

/-- Every byte of a modelled Ed25519 signature is below 256. -/
theorem ed25519Sign_lt (seed : Nat) (msg : String) :
    ∀ b ∈ ed25519Sign seed msg, b < 256 := by
  intro b hb
  simp only [ed25519Sign, List.mem_append] at hb
  rcases hb with hb | hb
  · exact keyBytes_lt seed b hb
  · exact strBytes_lt msg b hb

/-- The fixed-width byte rendering of a natural number below 256 to the
power k denotes that number. -/
theorem bytesToNatLE_natToBytesLE : ∀ (k n : Nat), n < 256 ^ k →
    bytesToNatLE (natToBytesLE k n) = n
  | 0, n, h => by
    simp [natToBytesLE, bytesToNatLE]
    omega
  | k + 1, n, h => by
    have hdiv : n / 256 < 256 ^ k := by
      rw [Nat.div_lt_iff_lt_mul (by norm_num)]
      calc n < 256 ^ (k + 1) := h
        _ = 256 ^ k * 256 := by ring
    have ih := bytesToNatLE_natToBytesLE k (n / 256) hdiv
    simp [natToBytesLE, bytesToNatLE, ih]
    omega

/-- Key byte forms of distinct 32-byte seeds are distinct. -/
theorem keyBytes_inj (s1 s2 : Nat) (h1 : s1 < 2 ^ 256) (h2 : s2 < 2 ^ 256)
    (hne : s1 ≠ s2) : keyBytes s1 ≠ keyBytes s2 := by
  intro h
  have e1 : bytesToNatLE (natToBytesLE 32 s1) = s1 :=
    bytesToNatLE_natToBytesLE 32 s1 (by norm_num at h1 ⊢; omega)
  have e2 : bytesToNatLE (natToBytesLE 32 s2) = s2 :=
    bytesToNatLE_natToBytesLE 32 s2 (by norm_num at h2 ⊢; omega)
  exact hne (by rw [← e1, ← e2]; exact congrArg bytesToNatLE h)

/-- The byte rendering of a natural number has the requested width. -/
theorem natToBytesLE_length : ∀ k n : Nat, (natToBytesLE k n).length = k
  | 0, _ => rfl
  | k + 1, n => by simp [natToBytesLE, natToBytesLE_length k]

/-- Modelled Ed25519 signatures by distinct 32-byte seeds over the same
message differ. -/
theorem ed25519Sign_key_ne (s1 s2 : Nat) (msg : String) (h1 : s1 < 2 ^ 256)
    (h2 : s2 < 2 ^ 256) (hne : s1 ≠ s2) :
    ed25519Sign s1 msg ≠ ed25519Sign s2 msg := by
  intro h
  simp only [ed25519Sign] at h
  have hlen : (keyBytes s1).length = (keyBytes s2).length := by
    simp [keyBytes, natToBytesLE_length]
  exact keyBytes_inj s1 s2 h1 h2 hne (List.append_inj_left h hlen)

/-- Canonical JSON does not see an attached signature. -/
theorem canonicalJSON_withSignature (e : Envelope) (s : Signature) :
    (withSignature e s).canonicalJSON = (withoutSignature e).canonicalJSON := by
  cases e with
  | mk id ty spec meta =>
    cases meta
    rfl

/-- Canonical JSON of an envelope equals canonical JSON of the same
envelope with its signature cleared. -/
theorem canonicalJSON_withoutSignature (e : Envelope) :
    (withoutSignature e).canonicalJSON = e.canonicalJSON := by
  cases e with
  | mk id ty spec meta =>
    cases meta with
    | mk schema version ca ua src tags exts sig prov =>
      cases sig <;> rfl

/-- Verification of a signed envelope reduces to the cryptographic check
of the recomputed canonical bytes: the attached base64 text decodes back
to the signature bytes, and the canonical JSON recomputed during
verification equals the canonical JSON signed. -/
theorem verify_sign (d : Envelope) (k : Signer) (now : String) (pub : Nat) :
    verify (k.sign now d) pub =
      (if ed25519Verify pub d.canonicalJSON (ed25519Sign k.seed d.canonicalJSON)
       then .ok () else .error .signatureFailed) := by
  have hcanon : (k.sign now d).canonicalJSON = d.canonicalJSON := by
    rw [show k.sign now d =
          withSignature d
            (Signature.mk "ed25519" k.publicKeyID
              (String.mk (b64Encode (ed25519Sign k.seed d.canonicalJSON))) now
              k.signedBy) from rfl,
        canonicalJSON_withSignature, canonicalJSON_withoutSignature]
  have hextract : extractSignature (k.sign now d) =
      some (Signature.mk "ed25519" k.publicKeyID
        (String.mk (b64Encode (ed25519Sign k.seed d.canonicalJSON))) now
        k.signedBy) := rfl
  have hdecode :
      b64Decode (String.mk (b64Encode (ed25519Sign k.seed d.canonicalJSON))) =
        some (ed25519Sign k.seed d.canonicalJSON) := by
    show b64DecodeChars
        (String.mk (b64Encode (ed25519Sign k.seed d.canonicalJSON))).data =
      some (ed25519Sign k.seed d.canonicalJSON)
    exact b64_roundtrip _ (ed25519Sign_lt _ _)
  simp only [verify, hextract, hcanon, hdecode]

/-- C1.  Canonical signature-invariance: for every envelope d and any two
distinct signatures S1 and S2, the canonical JSON of d with S1 attached,
of d with S2 attached, and of d with no signature are identical; the
canonical bytes are independent of the Meta.Signature field. -/
theorem canonical_signature_invariance (d : Envelope) (S1 S2 : Signature)
    (hne : S1 ≠ S2) :
    (withSignature d S1).canonicalJSON = (withSignature d S2).canonicalJSON ∧
    (withSignature d S1).canonicalJSON = (withoutSignature d).canonicalJSON := by
  refine ⟨?_, canonicalJSON_withSignature d S1⟩
  rw [canonicalJSON_withSignature d S1, canonicalJSON_withSignature d S2]

/-- Witness for C1 at a concrete envelope and two concrete distinct
signatures. -/
theorem canonical_signature_invariance_witness :
    (Signature.mk "ed25519" "k1" "AAAA" "2024-01-01T00:00:00Z" "alice" ≠
     Signature.mk "ed25519" "k2" "BBBB" "2024-01-02T00:00:00Z" "bob") ∧
    ((withSignature
        (Envelope.mk "ptd:tournament:x" "tournament" Jval.null
          (Meta.mk "ptd.v1" 1 "t0" "t1" "src" [] [] none none))
        (Signature.mk "ed25519" "k1" "AAAA" "2024-01-01T00:00:00Z" "alice")).canonicalJSON =
     (withSignature
        (Envelope.mk "ptd:tournament:x" "tournament" Jval.null
          (Meta.mk "ptd.v1" 1 "t0" "t1" "src" [] [] none none))
        (Signature.mk "ed25519" "k2" "BBBB" "2024-01-02T00:00:00Z" "bob")).canonicalJSON ∧
     (withSignature
        (Envelope.mk "ptd:tournament:x" "tournament" Jval.null
          (Meta.mk "ptd.v1" 1 "t0" "t1" "src" [] [] none none))
        (Signature.mk "ed25519" "k1" "AAAA" "2024-01-01T00:00:00Z" "alice")).canonicalJSON =
     (withoutSignature
        (Envelope.mk "ptd:tournament:x" "tournament" Jval.null
          (Meta.mk "ptd.v1" 1 "t0" "t1" "src" [] [] none none))).canonicalJSON) :=
  ⟨by decide,
   canonical_signature_invariance _ _ _ (by decide)⟩

/-- C2.  Sign/verify correctness: after signing with keyA, verification
under the public key of keyA succeeds; verification under the public key
of a different keypair keyB fails with SignatureFailed; and verification
of an envelope carrying no signature fails with SignatureMissing under
any public key. -/
theorem sign_verify_correctness (d : Envelope) (keyA keyB : Signer)
    (now : String) (hA : keyA.seed < 2 ^ 256) (hB : keyB.seed < 2 ^ 256)
    (hne : keyA.seed ≠ keyB.seed) :
    verify (keyA.sign now d) keyA.seed = .ok () ∧
    verify (keyA.sign now d) keyB.seed = .error .signatureFailed ∧
    (d.meta.signature = none → ∀ pub : Nat, verify d pub = .error .signatureMissing) := by
  refine ⟨?_, ?_, ?_⟩
  · rw [verify_sign]
    simp [ed25519Verify]
  · rw [verify_sign]
    have hfalse :
        ed25519Verify keyB.seed d.canonicalJSON
          (ed25519Sign keyA.seed d.canonicalJSON) = false := by
      simp only [ed25519Verify, beq_eq_false_iff_ne, ne_eq]
      exact ed25519Sign_key_ne keyA.seed keyB.seed d.canonicalJSON hA hB hne
    rw [hfalse]
    simp
  · intro hnone pub
    simp [verify, extractSignature, hnone]

/-- Witness for C2 at a concrete envelope and two concrete keypairs. -/
theorem sign_verify_correctness_witness :
    ((1 : Nat) < 2 ^ 256) ∧ ((2 : Nat) < 2 ^ 256) ∧ ((1 : Nat) ≠ 2) ∧
    (verify ((Signer.mk 1 "kid-a" "alice").sign "2024-01-01T00:00:00Z" sampleEnvelope) 1 = .ok () ∧
     verify ((Signer.mk 1 "kid-a" "alice").sign "2024-01-01T00:00:00Z" sampleEnvelope) 2 =
       .error .signatureFailed ∧
     (sampleEnvelope.meta.signature = none →
       ∀ pub : Nat, verify sampleEnvelope pub = .error .signatureMissing)) :=
  ⟨by norm_num, by norm_num, by decide,
   sign_verify_correctness sampleEnvelope (Signer.mk 1 "kid-a" "alice")
     (Signer.mk 2 "kid-b" "bob") "2024-01-01T00:00:00Z" (by norm_num)
     (by norm_num) (by decide)⟩

/-- Decoding the base64 text of an encoded byte list recovers the
bytes. -/
theorem b64Decode_mk_encode (bs : List Nat) (h : ∀ b ∈ bs, b < 256) :
    b64Decode (String.mk (b64Encode bs)) = some bs :=
  b64_roundtrip bs h

/-- C9.  Sign atomicity: for every envelope, Sign succeeds and returns
the envelope with a newly created Signature attached to its metadata —
algorithm ed25519, the key id and identity of the signer, the signing
time, and base64 signature bytes computed over the unsigned canonical
form — overwriting any prior signature, while every other field of the
envelope is unchanged.  (The only failure path of the Go code is a
canonical-JSON marshalling error, which returns before anything is
attached; for the envelope payloads modelled here marshalling is total.) -/
theorem sign_atomicity (s : Signer) (now : String) (e : Envelope) :
    (s.sign now e).id = e.id ∧
    (s.sign now e).type = e.type ∧
    (s.sign now e).spec = e.spec ∧
    (s.sign now e).meta.schema = e.meta.schema ∧
    (s.sign now e).meta.version = e.meta.version ∧
    (s.sign now e).meta.createdAt = e.meta.createdAt ∧
    (s.sign now e).meta.updatedAt = e.meta.updatedAt ∧
    (s.sign now e).meta.source = e.meta.source ∧
    (s.sign now e).meta.tags = e.meta.tags ∧
    (s.sign now e).meta.extensions = e.meta.extensions ∧
    (s.sign now e).meta.provenance = e.meta.provenance ∧
    ∃ sig : Signature, (s.sign now e).meta.signature = some sig ∧
      sig.algorithm = "ed25519" ∧
      sig.publicKeyID = s.publicKeyID ∧
      sig.signedBy = s.signedBy ∧
      sig.signedAt = now ∧
      b64Decode sig.signature =
        some (ed25519Sign s.seed (withoutSignature e).canonicalJSON) := by
  refine ⟨rfl, rfl, rfl, rfl, rfl, rfl, rfl, rfl, rfl, rfl, rfl, ?_⟩
  refine ⟨_, rfl, rfl, rfl, rfl, rfl, ?_⟩
  rw [canonicalJSON_withoutSignature]
  exact b64Decode_mk_encode _ (ed25519Sign_lt _ _)

/-- Canonical JSON of a manifest ignores the Files and Signature
fields. -/
theorem manifest_canonicalJSON_setFiles (m : Manifest)
    (files : List (String × FileEntry)) (sig : Option Signature) :
    Manifest.canonicalJSON { m with files := files, signature := sig } =
      Manifest.canonicalJSON m := by
  cases m
  rfl

/-- C4.  Manifest signature scope: the canonical JSON of a manifest is
independent of both the Files table and the Signature field — any two
manifests equal except in those two fields canonicalize to identical
bytes — and consequently a manifest signature produced by SignPackage
still verifies under VerifyPackageSignature after the file table is
arbitrarily changed. -/
theorem manifest_signature_scope :
    (∀ m1 m2 : Manifest, m1.version = m2.version → m1.created = m2.created →
       m1.creator = m2.creator → m1.description = m2.description →
       m1.entities = m2.entities →
       m1.canonicalJSON = m2.canonicalJSON) ∧
    (∀ (p : Package) (signer : Signer) (now : String)
       (files2 : List (String × FileEntry)),
       ((p.signPackage signer now).setFiles files2).verifyPackageSignature
         signer.seed = .ok ()) := by
  constructor
  · intro m1 m2 h1 h2 h3 h4 h5
    simp only [Manifest.canonicalJSON, h1, h2, h3, h4, h5]
  · intro p signer now files2
    have hcanon :
        (((p.signPackage signer now).setFiles files2).manifest).canonicalJSON =
          p.manifest.canonicalJSON :=
      manifest_canonicalJSON_setFiles p.manifest files2
        (some (Signature.mk "ed25519" signer.publicKeyID
          (String.mk (b64Encode
            (ed25519Sign signer.seed p.manifest.canonicalJSON))) now
          signer.signedBy))
    have hsig : (((p.signPackage signer now).setFiles files2).manifest).signature =
        some (Signature.mk "ed25519" signer.publicKeyID
          (String.mk (b64Encode
            (ed25519Sign signer.seed p.manifest.canonicalJSON))) now
          signer.signedBy) := rfl
    simp only [Package.verifyPackageSignature, hsig, hcanon,
      b64Decode_mk_encode _ (ed25519Sign_lt _ _)]
    simp [ed25519Verify]

/-- Witness for C4 at concrete manifests and a concrete signed
package. -/
theorem manifest_signature_scope_witness :
    ((Manifest.mk "1.0.0" "t0" "c" "d"
        [("a", FileEntry.mk "a" 1 "h1" "t" "application/json")] [] none).version =
     (Manifest.mk "1.0.0" "t0" "c" "d" [] []
        (some (Signature.mk "x" "x" "x" "x" "x"))).version) ∧
    ((Manifest.mk "1.0.0" "t0" "c" "d"
        [("a", FileEntry.mk "a" 1 "h1" "t" "application/json")] [] none).canonicalJSON =
     (Manifest.mk "1.0.0" "t0" "c" "d" [] []
        (some (Signature.mk "x" "x" "x" "x" "x"))).canonicalJSON) ∧
    (Package.verifyPackageSignature
        (Package.setFiles
          (Package.signPackage
            (Package.mk "t0" "1.0.0" (Manifest.mk "1.0.0" "t0" "c" "d" [] [] none))
            (Signer.mk 3 "kid" "carol") "t1")
          [("b", FileEntry.mk "b" 2 "h2" "t" "text/csv")]) 3 = .ok ()) := by
  refine ⟨rfl, ?_, ?_⟩
  · exact (manifest_signature_scope.1 _ _ rfl rfl rfl rfl rfl)
  · exact manifest_signature_scope.2
      (Package.mk "t0" "1.0.0" (Manifest.mk "1.0.0" "t0" "c" "d" [] [] none))
      (Signer.mk 3 "kid" "carol") "t1"
      [("b", FileEntry.mk "b" 2 "h2" "t" "text/csv")]

/-! ## Helper lemmas: the hash-validation loop -/

/-- When the validation loop reports no error, every present non-manifest
entry is listed with a matching hash. -/
theorem checkFiles_none_sound (m : Manifest) :
    ∀ entries, checkFiles m entries = none →
      ∀ p ∈ entries, p.1 ≠ "manifest.json" →
        ∃ entry, filesLookup p.1 m.files = some entry ∧
          sha256Hex p.2 = entry.hash := by
  intro entries
  induction entries with
  | nil => intro _ p hp; simp at hp
  | cons hd tl ih =>
    intro h p hp hne
    obtain ⟨name, data⟩ := hd
    simp only [checkFiles] at h
    by_cases hman : name = "manifest.json"
    · rw [if_pos hman] at h
      rcases List.mem_cons.mp hp with rfl | hp2
      · exact absurd hman hne
      · exact ih h p hp2 hne
    · rw [if_neg hman] at h
      cases hlook : filesLookup name m.files with
      | none => rw [hlook] at h; simp at h
      | some entry =>
        rw [hlook] at h
        dsimp only at h
        by_cases hsha : sha256Hex data ≠ entry.hash
        · rw [if_pos hsha] at h; simp at h
        · rw [if_neg hsha] at h
          push_neg at hsha
          rcases List.mem_cons.mp hp with rfl | hp2
          · exact ⟨entry, hlook, hsha⟩
          · exact ih h p hp2 hne

/-- When every present non-manifest entry is listed with a matching hash,
the validation loop reports no error. -/
theorem checkFiles_none_of_all (m : Manifest) :
    ∀ entries,
      (∀ p ∈ entries, p.1 ≠ "manifest.json" →
        ∃ entry, filesLookup p.1 m.files = some entry ∧
          sha256Hex p.2 = entry.hash) →
      checkFiles m entries = none := by
  intro entries
  induction entries with
  | nil => intro _; rfl
  | cons hd tl ih =>
    intro h
    obtain ⟨name, data⟩ := hd
    simp only [checkFiles]
    by_cases hman : name = "manifest.json"
    · rw [if_pos hman]
      exact ih (fun p hp => h p (List.mem_cons_of_mem _ hp))
    · rw [if_neg hman]
      obtain ⟨entry, hlook, hsha⟩ := h (name, data) (List.mem_cons_self _ _) hman
      rw [hlook]
      dsimp only
      rw [if_neg (by simp [hsha])]
      exact ih (fun p hp => h p (List.mem_cons_of_mem _ hp))

/-- When every present non-manifest entry is listed, an error reported by
the validation loop is a HashMismatch. -/
theorem checkFiles_some_hashMismatch (m : Manifest) :
    ∀ entries,
      (∀ p ∈ entries, p.1 ≠ "manifest.json" →
        (filesLookup p.1 m.files).isSome) →
      ∀ err, checkFiles m entries = some err → ∃ f, err = .hashMismatch f := by
  intro entries
  induction entries with
  | nil => intro _ err h; simp [checkFiles] at h
  | cons hd tl ih =>
    intro hall err h
    obtain ⟨name, data⟩ := hd
    simp only [checkFiles] at h
    by_cases hman : name = "manifest.json"
    · rw [if_pos hman] at h
      exact ih (fun p hp => hall p (List.mem_cons_of_mem _ hp)) err h
    · rw [if_neg hman] at h
      have hsome := hall (name, data) (List.mem_cons_self _ _) hman
      cases hlook : filesLookup name m.files with
      | none => rw [hlook] at hsome; simp at hsome
      | some entry =>
        rw [hlook] at h
        dsimp only at h
        by_cases hsha : sha256Hex data ≠ entry.hash
        · rw [if_pos hsha] at h
          exact ⟨name, by simpa using h.symm⟩
        · rw [if_neg hsha] at h
          exact ih (fun p hp => hall p (List.mem_cons_of_mem _ hp)) err h

/-- When every listed present entry matches its recorded hash, an error
reported by the validation loop is an unexpected-file error. -/
theorem checkFiles_some_unexpected (m : Manifest) :
    ∀ entries,
      (∀ p ∈ entries, p.1 ≠ "manifest.json" →
        ∀ entry, filesLookup p.1 m.files = some entry →
          sha256Hex p.2 = entry.hash) →
      ∀ err, checkFiles m entries = some err → ∃ f, err = .unexpectedFile f := by
  intro entries
  induction entries with
  | nil => intro _ err h; simp [checkFiles] at h
  | cons hd tl ih =>
    intro hall err h
    obtain ⟨name, data⟩ := hd
    simp only [checkFiles] at h
    by_cases hman : name = "manifest.json"
    · rw [if_pos hman] at h
      exact ih (fun p hp => hall p (List.mem_cons_of_mem _ hp)) err h
    · rw [if_neg hman] at h
      cases hlook : filesLookup name m.files with
      | none =>
        rw [hlook] at h
        dsimp only at h
        exact ⟨name, by simpa using h.symm⟩
      | some entry =>
        rw [hlook] at h
        dsimp only at h
        have hsha := hall (name, data) (List.mem_cons_self _ _) hman entry hlook
        rw [if_neg (by simp [hsha])] at h
        exact ih (fun p hp => hall p (List.mem_cons_of_mem _ hp)) err h

/-- Unfolding of OpenPackage once the manifest has been found and
parsed. -/
theorem openPackage_eq (parse : List Nat → Option Manifest)
    (entries : List (String × List Nat)) (mb : List Nat) (m : Manifest)
    (hfind : findManifestBytes entries = some mb) (hparse : parse mb = some m) :
    openPackage parse entries =
      (match checkFiles m entries with
       | some e => .error e
       | none => .ok (Package.mk m.created m.version m)) := by
  simp only [openPackage, hfind, hparse]

/-- C3.  Tamper detection on open (corrected): OpenPackage fails with
ManifestMissing when the archive has no manifest.json; and when some file
listed in the file table is present with content hashing differently from
the recorded hash, OpenPackage fails and returns no package — with a
HashMismatch error provided every present non-manifest file has a
file-table entry.  (As stated, the claim is false: an unlisted file
earlier in archive order is reported as an unexpected-file error instead,
see the counterexample.) -/
theorem tamper_detection_on_open (parse : List Nat → Option Manifest)
    (entries : List (String × List Nat)) :
    (findManifestBytes entries = none →
      openPackage parse entries = .error .manifestMissing) ∧
    (∀ mb m, findManifestBytes entries = some mb → parse mb = some m →
      (∃ p ∈ entries, p.1 ≠ "manifest.json" ∧
        ∃ entry, filesLookup p.1 m.files = some entry ∧
          sha256Hex p.2 ≠ entry.hash) →
      (∃ err, openPackage parse entries = .error err) ∧
      ((∀ p ∈ entries, p.1 ≠ "manifest.json" →
          (filesLookup p.1 m.files).isSome) →
        ∃ f, openPackage parse entries = .error (.hashMismatch f))) := by
  constructor
  · intro hnone
    simp only [openPackage, hnone]
  · intro mb m hfind hparse hbad
    have hsome : ∃ err, checkFiles m entries = some err := by
      cases hcheck : checkFiles m entries with
      | some err => exact ⟨err, rfl⟩
      | none =>
        obtain ⟨p, hp, hnm, entry, hlook, hne⟩ := hbad
        obtain ⟨entry2, hlook2, heq⟩ :=
          checkFiles_none_sound m entries hcheck p hp hnm
        rw [hlook] at hlook2
        have hee := Option.some.inj hlook2
        subst hee
        exact absurd heq hne
    obtain ⟨err, herr⟩ := hsome
    refine ⟨⟨err, ?_⟩, ?_⟩
    · rw [openPackage_eq parse entries mb m hfind hparse, herr]
    · intro hall
      obtain ⟨f, rfl⟩ := checkFiles_some_hashMismatch m entries hall err herr
      exact ⟨f, by rw [openPackage_eq parse entries mb m hfind hparse, herr]⟩

/-- Counterexample for C3 as stated: the archive cex3Entries contains the
listed file a.json with mismatching content, yet OpenPackage reports the
unexpected file that precedes it in archive order, not a HashMismatch. -/
theorem tamper_detection_on_open_counterexample :
    (findManifestBytes cex3Entries = some [0]) ∧
    (cex3Parse [0] = some cex3Manifest) ∧
    (("a.json", ([2] : List Nat)) ∈ cex3Entries ∧ "a.json" ≠ "manifest.json" ∧
      ∃ entry, filesLookup "a.json" cex3Manifest.files = some entry ∧
        sha256Hex [2] ≠ entry.hash) ∧
    openPackage cex3Parse cex3Entries = .error (.unexpectedFile "rogue") ∧
    (∀ f, openPackage cex3Parse cex3Entries ≠ .error (.hashMismatch f)) := by
  have hopen : openPackage cex3Parse cex3Entries =
      .error (.unexpectedFile "rogue") := by rfl
  refine ⟨by decide, by decide, by decide, hopen, ?_⟩
  intro f h
  rw [hopen] at h
  simp at h

/-- Witness for C3 (amended form): on an archive whose present files are
all listed but one mismatches, the failure is a HashMismatch. -/
theorem tamper_detection_on_open_witness :
    (findManifestBytes wit3Entries = some [0]) ∧
    (cex3Parse [0] = some cex3Manifest) ∧
    (∃ p ∈ wit3Entries, p.1 ≠ "manifest.json" ∧
      ∃ entry, filesLookup p.1 cex3Manifest.files = some entry ∧
        sha256Hex p.2 ≠ entry.hash) ∧
    (∀ p ∈ wit3Entries, p.1 ≠ "manifest.json" →
      (filesLookup p.1 cex3Manifest.files).isSome) ∧
    (∃ f, openPackage cex3Parse wit3Entries = .error (.hashMismatch f)) := by
  refine ⟨by decide, by decide, by decide, by decide, ?_⟩
  exact ((tamper_detection_on_open cex3Parse wit3Entries).2 [0] cex3Manifest
    (by decide) (by decide) (by decide)).2 (by decide)

/-- C5.  Present-versus-listed asymmetry of the open phase (corrected):
a present non-manifest file with no file-table entry causes OpenPackage
to fail — with the unexpected-file error provided every listed present
file matches its recorded hash — while a file-table entry with no
corresponding archived file causes no error: OpenPackage succeeds
whenever every physically present file matches its entry, even if the
manifest lists files that are absent.  (As stated, the claim is false: a
hash mismatch earlier in archive order is reported instead of the
unexpected-file error, see the counterexample.) -/
theorem open_phase_asymmetry (parse : List Nat → Option Manifest)
    (entries : List (String × List Nat)) :
    ∀ mb m, findManifestBytes entries = some mb → parse mb = some m →
      ((∃ p ∈ entries, p.1 ≠ "manifest.json" ∧
          filesLookup p.1 m.files = none) →
        (∃ err, openPackage parse entries = .error err) ∧
        ((∀ p ∈ entries, p.1 ≠ "manifest.json" →
            ∀ entry, filesLookup p.1 m.files = some entry →
              sha256Hex p.2 = entry.hash) →
          ∃ f, openPackage parse entries = .error (.unexpectedFile f))) ∧
      ((∀ p ∈ entries, p.1 ≠ "manifest.json" →
          ∃ entry, filesLookup p.1 m.files = some entry ∧
            sha256Hex p.2 = entry.hash) →
        openPackage parse entries = .ok (Package.mk m.created m.version m)) := by
  intro mb m hfind hparse
  constructor
  · intro hunlisted
    have hsome : ∃ err, checkFiles m entries = some err := by
      cases hcheck : checkFiles m entries with
      | some err => exact ⟨err, rfl⟩
      | none =>
        obtain ⟨p, hp, hnm, hnone⟩ := hunlisted
        obtain ⟨entry2, hlook2, _⟩ :=
          checkFiles_none_sound m entries hcheck p hp hnm
        rw [hnone] at hlook2
        exact Option.noConfusion hlook2
    obtain ⟨err, herr⟩ := hsome
    refine ⟨⟨err, ?_⟩, ?_⟩
    · rw [openPackage_eq parse entries mb m hfind hparse, herr]
    · intro hall
      obtain ⟨f, rfl⟩ := checkFiles_some_unexpected m entries hall err herr
      exact ⟨f, by rw [openPackage_eq parse entries mb m hfind hparse, herr]⟩
  · intro hall
    rw [openPackage_eq parse entries mb m hfind hparse,
        checkFiles_none_of_all m entries hall]

/-- Counterexample for C5 as stated: the archive cex5Entries contains the
unlisted file rogue2, yet OpenPackage reports the hash mismatch of the
listed file that precedes it in archive order, not an unexpected-file
error. -/
theorem open_phase_asymmetry_counterexample :
    (findManifestBytes cex5Entries = some [9]) ∧
    (cex5Parse [9] = some cex5Manifest) ∧
    (("rogue2", ([1] : List Nat)) ∈ cex5Entries ∧ "rogue2" ≠ "manifest.json" ∧
      filesLookup "rogue2" cex5Manifest.files = none) ∧
    openPackage cex5Parse cex5Entries = .error (.hashMismatch "b.json") ∧
    (∀ f, openPackage cex5Parse cex5Entries ≠ .error (.unexpectedFile f)) := by
  have hopen : openPackage cex5Parse cex5Entries =
      .error (.hashMismatch "b.json") := by rfl
  refine ⟨by decide, by decide, by decide, hopen, ?_⟩
  intro f h
  rw [hopen] at h
  simp at h

/-- Witness for C5 (amended form): an archive with an absent listed file
but matching present files opens successfully, and an archive whose only
offence is an unlisted file fails with the unexpected-file error. -/
theorem open_phase_asymmetry_witness :
    (findManifestBytes wit5Entries = some [9]) ∧
    (wit5Parse [9] = some wit5Manifest) ∧
    (∀ p ∈ wit5Entries, p.1 ≠ "manifest.json" →
      ∃ entry, filesLookup p.1 wit5Manifest.files = some entry ∧
        sha256Hex p.2 = entry.hash) ∧
    (filesLookup "absent.json" wit5Manifest.files =
      some (FileEntry.mk "absent.json" 1 "dddd" "t" "application/json")) ∧
    (∀ p ∈ wit5Entries, p.1 ≠ "absent.json") ∧
    (openPackage wit5Parse wit5Entries =
      .ok (Package.mk wit5Manifest.created wit5Manifest.version wit5Manifest)) ∧
    ((∃ p ∈ wit5EntriesUnexpected, p.1 ≠ "manifest.json" ∧
        filesLookup p.1 wit5Manifest.files = none) ∧
      ∃ f, openPackage wit5Parse wit5EntriesUnexpected =
        .error (.unexpectedFile f)) := by
  refine ⟨by decide, by decide, by decide, by decide, by decide, ?_, by decide, ?_⟩
  · exact (open_phase_asymmetry wit5Parse wit5Entries [9] wit5Manifest
      (by decide) (by decide)).2 (by decide)
  · exact ((open_phase_asymmetry wit5Parse wit5EntriesUnexpected [9] wit5Manifest
      (by decide) (by decide)).1 (by decide)).2 (by decide)

/-! ## Helper lemmas: base32 rendering and the generator -/

/-- Width of the fixed-width base32 rendering. -/
theorem b32EncodeWith_length (f : Nat → Char) :
    ∀ k v, (b32EncodeWith f k v).length = k
  | 0, _ => rfl
  | k + 1, v => by simp [b32EncodeWith, b32EncodeWith_length f k]

/-- Every character of the base32 rendering is the image of a digit. -/
theorem b32EncodeWith_mem (f : Nat → Char) :
    ∀ k v c, c ∈ b32EncodeWith f k v → ∃ d, d < 32 ∧ c = f d
  | 0, v, c, h => by simp [b32EncodeWith] at h
  | k + 1, v, c, h => by
    simp only [b32EncodeWith, List.mem_cons] at h
    rcases h with rfl | h
    · exact ⟨_, Nat.mod_lt _ (by norm_num), rfl⟩
    · exact b32EncodeWith_mem f k _ c h

/-- Mapping a character function over the base32 rendering composes with
the digit map. -/
theorem b32EncodeWith_map (g : Char → Char) (f : Nat → Char) :
    ∀ k v, (b32EncodeWith f k v).map g = b32EncodeWith (fun d => g (f d)) k v
  | 0, _ => rfl
  | k + 1, v => by simp [b32EncodeWith, b32EncodeWith_map g f k]

/-- Fixed-width base32 rendering through a strictly monotone digit map is
strictly monotone for the lexicographic order on character lists. -/
theorem b32EncodeWith_lt (f : Nat → Char)
    (hf : ∀ d1 < 32, ∀ d2 < 32, d1 < d2 → f d1 < f d2) :
    ∀ k v1 v2, v1 < v2 → v2 < 32 ^ k →
      b32EncodeWith f k v1 < b32EncodeWith f k v2
  | 0, v1, v2, h, hb => absurd h (by omega)
  | k + 1, v1, v2, h, hb => by
    have hpow : 0 < 32 ^ k := Nat.pos_pow_of_pos k (by norm_num)
    have hv2d : v2 / 32 ^ k < 32 := by
      rw [Nat.div_lt_iff_lt_mul hpow]
      calc v2 < 32 ^ (k + 1) := hb
        _ = 32 * 32 ^ k := by ring
    have hv1d : v1 / 32 ^ k < 32 :=
      lt_of_le_of_lt (Nat.div_le_div_right (le_of_lt h)) hv2d
    have hm1 : v1 / 32 ^ k % 32 = v1 / 32 ^ k := Nat.mod_eq_of_lt hv1d
    have hm2 : v2 / 32 ^ k % 32 = v2 / 32 ^ k := Nat.mod_eq_of_lt hv2d
    show List.Lex (· < ·) _ _
    simp only [b32EncodeWith, hm1, hm2]
    rcases Nat.lt_or_ge (v1 / 32 ^ k) (v2 / 32 ^ k) with hlt | hge
    · exact List.Lex.rel (hf _ hv1d _ hv2d hlt)
    · have heq : v1 / 32 ^ k = v2 / 32 ^ k :=
        le_antisymm (Nat.div_le_div_right (le_of_lt h)) hge
      have hmod : v1 % 32 ^ k < v2 % 32 ^ k := by
        have e1 := Nat.div_add_mod v1 (32 ^ k)
        have e2 := Nat.div_add_mod v2 (32 ^ k)
        rw [← e1, ← e2, heq] at h
        exact Nat.lt_of_add_lt_add_left h
      rw [heq]
      exact List.Lex.cons
        (b32EncodeWith_lt f hf k _ _ hmod (Nat.mod_lt _ hpow))

/-- The Crockford digit map is strictly monotone in character order. -/
theorem crockfordChar_mono :
    ∀ d1 < 32, ∀ d2 < 32, d1 < d2 → crockfordChar d1 < crockfordChar d2 := by
  decide

/-- The lower-cased Crockford digit map is strictly monotone in character
order. -/
theorem crockfordLower_mono :
    ∀ d1 < 32, ∀ d2 < 32, d1 < d2 →
      toLowerChar (crockfordChar d1) < toLowerChar (crockfordChar d2) := by
  decide

/-- ULID strings of increasing 128-bit values increase in lexicographic
string order. -/
theorem ulidString_lt (v1 v2 : Nat) (h : v1 < v2) (hb : v2 < 2 ^ 128) :
    String.mk (ulidChars v1) < String.mk (ulidChars v2) := by
  rw [String.lt_iff_toList_lt]
  exact b32EncodeWith_lt crockfordChar crockfordChar_mono 26 v1 v2 h
    (lt_of_lt_of_le hb (by norm_num))

/-- Lower-cased ULID strings of increasing 128-bit values increase in
lexicographic string order. -/
theorem ulidStringLower_lt (v1 v2 : Nat) (h : v1 < v2) (hb : v2 < 2 ^ 128) :
    strToLower (String.mk (ulidChars v1)) < strToLower (String.mk (ulidChars v2)) := by
  show String.mk ((ulidChars v1).map toLowerChar) <
    String.mk ((ulidChars v2).map toLowerChar)
  rw [String.lt_iff_toList_lt]
  show (ulidChars v1).map toLowerChar < (ulidChars v2).map toLowerChar
  rw [ulidChars, ulidChars, b32EncodeWith_map, b32EncodeWith_map]
  exact b32EncodeWith_lt _ crockfordLower_mono 26 v1 v2 h
    (lt_of_lt_of_le hb (by norm_num))

/-- The value returned by a generator step is the value recorded in the
new state. -/
theorem genStep_value (st : GenState) (now fresh incr : Nat) :
    (genStep st now fresh incr).1 = stateValue (genStep st now fresh incr).2 := by
  simp only [genStep, stateValue]
  split
  · next hcond => simp [hcond.2]
  · rfl

/-- Under the environment assumptions of one call, the recorded state
value strictly increases. -/
theorem genStep_stateValue_lt (st : GenState) (now fresh incr : Nat)
    (hE : st.lastEntropy < 2 ^ 80) (hms : st.lastMs ≤ now)
    (hfresh : 0 < fresh) (hincr : 0 < incr) :
    stateValue st < stateValue (genStep st now fresh incr).2 := by
  simp only [genStep, stateValue]
  split
  · next hcond =>
    simp only [hcond.2]
    omega
  · next hcond =>
    by_cases h0 : st.lastEntropy = 0
    · simp only
      omega
    · have hne : now ≠ st.lastMs := fun he => hcond ⟨h0, he⟩
      simp only
      have : st.lastMs < now := lt_of_le_of_ne hms (fun he => hne he.symm)
      have hmul : st.lastMs * 2 ^ 80 + 2 ^ 80 ≤ now * 2 ^ 80 := by
        have : st.lastMs + 1 ≤ now := this
        calc st.lastMs * 2 ^ 80 + 2 ^ 80 = (st.lastMs + 1) * 2 ^ 80 := by ring
          _ ≤ now * 2 ^ 80 := Nat.mul_le_mul_right _ this
      omega

/-- The timestamp recorded after a step is bounded by the larger of the
previous timestamp and the now parameter. -/
theorem genStep_lastMs_le (st : GenState) (now fresh incr : Nat) :
    (genStep st now fresh incr).2.lastMs = st.lastMs ∨
    (genStep st now fresh incr).2.lastMs = now := by
  simp only [genStep]
  split
  · exact Or.inl rfl
  · exact Or.inr rfl

/-- Main induction for a generator run: under the environment
assumptions, the produced 128-bit values form a strictly increasing chain
of values below 2 to the 128, each above the starting state value. -/
theorem runValues_chain : ∀ (inputs : List (Nat × Nat × Nat)) (st : GenState),
    st.lastMs < 2 ^ 48 → st.lastEntropy < 2 ^ 80 → runOk st inputs = true →
    List.Chain' (fun a b => a < b ∧ b < 2 ^ 128) (runValues st inputs) ∧
    (∀ v ∈ (runValues st inputs).head?, stateValue st < v) ∧
    (∀ v ∈ runValues st inputs, v < 2 ^ 128)
  | [], st, _, _, _ => by
    refine ⟨List.chain'_nil, ?_, ?_⟩ <;> simp [runValues]
  | (now, fresh, incr) :: rest, st, hms, hE, hok => by
    simp only [runOk, Bool.and_eq_true, decide_eq_true_eq] at hok
    obtain ⟨⟨⟨⟨⟨⟨h1, h2⟩, h3⟩, h4⟩, h5⟩, h6⟩, hok2⟩ := hok
    have hms2 : (genStep st now fresh incr).2.lastMs < 2 ^ 48 := by
      rcases genStep_lastMs_le st now fresh incr with h | h <;> omega
    have ih := runValues_chain rest (genStep st now fresh incr).2 hms2 h6 hok2
    have hv0 : (genStep st now fresh incr).1 =
        stateValue (genStep st now fresh incr).2 := genStep_value st now fresh incr
    have hstep : stateValue st < stateValue (genStep st now fresh incr).2 :=
      genStep_stateValue_lt st now fresh incr hE h1 h3 h5
    have hbound : (genStep st now fresh incr).1 < 2 ^ 128 := by
      rw [hv0]
      simp only [stateValue]
      have := hms2
      have := h6
      have : (genStep st now fresh incr).2.lastMs * 2 ^ 80 ≤ (2 ^ 48 - 1) * 2 ^ 80 :=
        Nat.mul_le_mul_right _ (by omega)
      omega
    refine ⟨?_, ?_, ?_⟩
    · rw [runValues]
      rw [List.chain'_cons']
      refine ⟨?_, ih.1⟩
      intro b hb
      have hlt := ih.2.1 b hb
      have hbb : b < 2 ^ 128 := by
        have hmem : b ∈ runValues (genStep st now fresh incr).2 rest := by
          cases hrv : runValues (genStep st now fresh incr).2 rest with
          | nil => rw [hrv] at hb; simp at hb
          | cons x xs =>
            rw [hrv] at hb
            simp at hb
            subst hb
            exact List.mem_cons_self _ _
        exact ih.2.2 b hmem
      exact ⟨by omega, hbb⟩
    · intro v hv
      rw [runValues] at hv
      simp at hv
      omega
    · intro v hv
      rw [runValues] at hv
      rcases List.mem_cons.mp hv with rfl | hv2
      · exact hbound
      · exact ih.2.2 v hv2

/-- ULID strings of a run are the renderings of its 128-bit values. -/
theorem runGen_eq_map : ∀ (inputs : List (Nat × Nat × Nat)) (st : GenState),
    runGen st inputs = (runValues st inputs).map (fun v => String.mk (ulidChars v))
  | [], _ => rfl
  | (now, fresh, incr) :: rest, st => by
    simp only [runGen, runValues, List.map_cons]
    rw [runGen_eq_map rest (genStep st now fresh incr).2]

/-- C7.  Identifier uniqueness and strict monotonicity: under the
environment assumptions (monotone clock, in-range random draws, no
entropy overflow), the ULID strings of sequential calls on one generator
are a strictly increasing chain in lexicographic string order and are
pairwise distinct; the same holds for the lower-cased strings that form
the raw-id part of GenerateID, whose output is exactly
ptd:TYPE:lowercased-ULID. -/
theorem id_uniqueness_monotonicity (inputs : List (Nat × Nat × Nat))
    (h : runOk initGenState inputs = true) :
    List.Chain' (fun a b => a < b) (runGen initGenState inputs) ∧
    List.Pairwise (fun a b => a ≠ b) (runGen initGenState inputs) ∧
    List.Chain' (fun a b => a < b) ((runGen initGenState inputs).map strToLower) ∧
    List.Pairwise (fun a b => a ≠ b) ((runGen initGenState inputs).map strToLower) ∧
    (∀ (st : GenState) (T : String) (now fresh incr : Nat),
      (GenerateID st T now fresh incr).1 =
        "ptd:" ++ T ++ ":" ++ strToLower (GenerateULID st now fresh incr).1) := by
  have hval := runValues_chain inputs initGenState (by decide) (by decide) h
  have hchainV := hval.1
  have hchainS : List.Chain' (fun a b => a < b) (runGen initGenState inputs) := by
    rw [runGen_eq_map, List.chain'_map]
    exact hchainV.imp (fun a b hab => ulidString_lt a b hab.1 hab.2)
  have hchainL : List.Chain' (fun a b => a < b)
      ((runGen initGenState inputs).map strToLower) := by
    rw [runGen_eq_map, List.map_map, List.chain'_map]
    exact hchainV.imp (fun a b hab => ulidStringLower_lt a b hab.1 hab.2)
  refine ⟨hchainS, ?_, hchainL, ?_, fun _ _ _ _ _ => rfl⟩
  · exact (List.chain'_iff_pairwise.mp hchainS).imp ne_of_lt
  · exact (List.chain'_iff_pairwise.mp hchainL).imp ne_of_lt

/-- Witness for C7 at a concrete run of three calls, two of them in the
same millisecond. -/
theorem id_uniqueness_monotonicity_witness :
    runOk initGenState wit7Inputs = true ∧
    (List.Chain' (fun a b => a < b) (runGen initGenState wit7Inputs) ∧
     List.Pairwise (fun a b => a ≠ b) (runGen initGenState wit7Inputs) ∧
     List.Chain' (fun a b => a < b) ((runGen initGenState wit7Inputs).map strToLower) ∧
     List.Pairwise (fun a b => a ≠ b) ((runGen initGenState wit7Inputs).map strToLower) ∧
     (∀ (st : GenState) (T : String) (now fresh incr : Nat),
       (GenerateID st T now fresh incr).1 =
         "ptd:" ++ T ++ ":" ++ strToLower (GenerateULID st now fresh incr).1)) :=
  ⟨by decide, id_uniqueness_monotonicity wit7Inputs (by decide)⟩

/-! ## Helper lemmas: splitting on colons and ParseID -/

/-- Splitting never returns an empty list of parts. -/
theorem splitColon_ne_nil : ∀ l : List Char, splitColon l ≠ []
  | [] => by simp [splitColon]
  | c :: rest => by
    simp only [splitColon]
    split_ifs
    · simp
    · cases h : splitColon rest <;> simp

/-- Splitting a colon-free list yields that list as the only part. -/
theorem splitColon_no_colon (l : List Char) (hl : ∀ c ∈ l, c ≠ ':') :
    splitColon l = [l] := by
  induction l with
  | nil => rfl
  | cons c rest ih =>
    have hc : c ≠ ':' := hl c (List.mem_cons_self _ _)
    simp only [splitColon, if_neg hc]
    rw [ih (fun x hx => hl x (List.mem_cons_of_mem _ hx))]

/-- Splitting after a colon-free front extends the first part. -/
theorem splitColon_append (l : List Char) (r : List Char)
    (hl : ∀ c ∈ l, c ≠ ':') :
    ∀ h t, splitColon r = h :: t → splitColon (l ++ r) = (l ++ h) :: t := by
  induction l with
  | nil => intro h t hr; simpa using hr
  | cons c rest ih =>
    intro h t hr
    have hc : c ≠ ':' := hl c (List.mem_cons_self _ _)
    simp only [List.cons_append, splitColon, if_neg hc, List.append_eq]
    rw [ih (fun x hx => hl x (List.mem_cons_of_mem _ hx)) h t hr]

/-- Splitting a three-part colon-joined list. -/
theorem splitColon_three (p t r : List Char)
    (hp : ∀ c ∈ p, c ≠ ':') (ht : ∀ c ∈ t, c ≠ ':') (hr : ∀ c ∈ r, c ≠ ':') :
    splitColon (p ++ ':' :: (t ++ ':' :: r)) = [p, t, r] := by
  have h2 : splitColon (':' :: r) = [] :: [r] := by
    simp [splitColon, splitColon_no_colon r hr]
  have h3 : splitColon (t ++ ':' :: r) = [t, r] := by
    have := splitColon_append t (':' :: r) ht [] [r] h2
    simpa using this
  have h4 : splitColon (':' :: (t ++ ':' :: r)) = [] :: [t, r] := by
    simp [splitColon, h3]
  have h5 := splitColon_append p (':' :: (t ++ ':' :: r)) hp [] [t, r] h4
  simpa using h5

/-- ParseID succeeds on a well-formed three-part identifier with
colon-free type and raw components. -/
theorem ParseID_build (t r : String) (ht : ∀ c ∈ t.data, c ≠ ':')
    (hr : ∀ c ∈ r.data, c ≠ ':') :
    ParseID ("ptd:" ++ t ++ ":" ++ r) = .ok ("ptd", t, r) := by
  have hdata : ("ptd:" ++ t ++ ":" ++ r).data =
      ['p', 't', 'd'] ++ ':' :: (t.data ++ ':' :: r.data) := by
    simp [String.data_append]
  simp only [ParseID, hdata,
    splitColon_three ['p', 't', 'd'] t.data r.data (by decide) ht hr]
  simp

/-- C10.  Implicit: parsing does not validate the raw id — for all
colon-free strings t and r (r may be empty or fail IsULID), ParseID of
ptd:t:r succeeds with the three components, and ValidateID accepts the
identifier; the length and alphabet of the raw component are never
checked. -/
theorem parse_does_not_validate_raw (t r : String)
    (ht : ∀ c ∈ t.data, c ≠ ':') (hr : ∀ c ∈ r.data, c ≠ ':') :
    ParseID ("ptd:" ++ t ++ ":" ++ r) = .ok ("ptd", t, r) ∧
    ValidateID ("ptd:" ++ t ++ ":" ++ r) = true := by
  have h := ParseID_build t r ht hr
  exact ⟨h, by simp [ValidateID, h]⟩

/-- Witness for C10 at the empty raw id, which the raw-id format checker
rejects. -/
theorem parse_does_not_validate_raw_witness :
    (∀ c ∈ ("tournament" : String).data, c ≠ ':') ∧
    (∀ c ∈ ("" : String).data, c ≠ ':') ∧
    IsULID "" = false ∧
    (ParseID ("ptd:" ++ "tournament" ++ ":" ++ "") =
       .ok ("ptd", "tournament", "") ∧
     ValidateID ("ptd:" ++ "tournament" ++ ":" ++ "") = true) :=
  ⟨by decide, by decide, by decide,
   parse_does_not_validate_raw "tournament" "" (by decide) (by decide)⟩

/-- Lower-cased Crockford characters are never a colon. -/
theorem crockfordLower_ne_colon :
    ∀ d < 32, toLowerChar (crockfordChar d) ≠ ':' := by
  decide

/-- Lower-cased Crockford characters are accepted by the ULID decoding
table. -/
theorem crockfordLower_ulid_valid :
    ∀ d < 32, (ulidDecChar (toLowerChar (crockfordChar d))).isSome = true := by
  decide

/-- Lower-cased Crockford characters of digits below 8 are at most the
digit 7. -/
theorem crockfordLower_le_55 :
    ∀ d < 8, (toLowerChar (crockfordChar d)).toNat ≤ 55 := by
  decide

/-- The value produced by one generator step is below 2 to the 128 when
the inputs are in range. -/
theorem genStep_value_lt (st : GenState) (now fresh incr : Nat)
    (hnow : now < 2 ^ 48) (hfresh : fresh < 2 ^ 80)
    (hincr : st.lastEntropy + incr < 2 ^ 80) :
    (genStep st now fresh incr).1 < 2 ^ 128 := by
  have hmul : now * 2 ^ 80 ≤ (2 ^ 48 - 1) * 2 ^ 80 :=
    Nat.mul_le_mul_right _ (by omega)
  simp only [genStep]
  split
  · simp only
    omega
  · simp only
    omega

/-- IsULID accepts the lower-cased ULID rendering of any value below 2 to
the 128. -/
theorem isULID_lower (v : Nat) (hv : v < 2 ^ 128) :
    IsULID (String.mk ((ulidChars v).map toLowerChar)) = true := by
  have hunfold : (ulidChars v).map toLowerChar =
      toLowerChar (crockfordChar (v / 32 ^ 25 % 32)) ::
        (b32EncodeWith crockfordChar 25 (v % 32 ^ 25)).map toLowerChar := rfl
  have hlen : ((ulidChars v).map toLowerChar).length = 26 := by
    simp [ulidChars, b32EncodeWith_length]
  have hall : ∀ c ∈ (ulidChars v).map toLowerChar, (ulidDecChar c).isSome = true := by
    intro c hc
    obtain ⟨c0, hc0, rfl⟩ := List.mem_map.mp hc
    obtain ⟨d, hd, rfl⟩ := b32EncodeWith_mem crockfordChar 26 v c0 hc0
    exact crockfordLower_ulid_valid d hd
  have hdiv : v / 32 ^ 25 < 8 := by
    rw [Nat.div_lt_iff_lt_mul (by positivity)]
    calc v < 2 ^ 128 := hv
      _ = 8 * 32 ^ 25 := by norm_num
  have hd8 : v / 32 ^ 25 % 32 < 8 := by
    rw [Nat.mod_eq_of_lt (by omega)]
    exact hdiv
  simp only [IsULID, Bool.and_eq_true, decide_eq_true_eq, List.all_eq_true]
  refine ⟨⟨hlen, hall⟩, ?_⟩
  simp only [hunfold, decide_eq_true_eq]
  exact crockfordLower_le_55 _ hd8

/-- C8.  Parse contract and round-trip: ParseID fails only with
InvalidID; it returns the three components exactly when the split of the
identifier at colons has exactly three parts whose first is ptd; and for
every colon-free entity type, ParseID of a generated identifier succeeds
with namespace ptd, the given entity type, and a raw id accepted by
IsULID (which accepts the lower-cased ULID GenerateID emits). -/
theorem parse_contract_roundtrip :
    (∀ id : String, ParseID id = .error .invalidID ∨
       ∃ p t r, ParseID id = .ok (p, t, r)) ∧
    (∀ (id p t r : String), ParseID id = .ok (p, t, r) ↔
       (splitColon id.data = [p.data, t.data, r.data] ∧ p = "ptd")) ∧
    (∀ (T : String) (st : GenState) (now fresh incr : Nat),
       (∀ c ∈ T.data, c ≠ ':') → now < 2 ^ 48 → fresh < 2 ^ 80 →
       st.lastEntropy + incr < 2 ^ 80 →
       ∃ raw : String,
         ParseID (GenerateID st T now fresh incr).1 = .ok ("ptd", T, raw) ∧
         IsULID raw = true) := by
  refine ⟨?_, ?_, ?_⟩
  · intro id
    rcases hsp : splitColon id.data with _ | ⟨a, _ | ⟨b, _ | ⟨c, _ | ⟨d, rest⟩⟩⟩⟩
    · left; simp [ParseID, hsp]
    · left; simp [ParseID, hsp]
    · left; simp [ParseID, hsp]
    · by_cases hp : String.mk a = "ptd"
      · right
        refine ⟨String.mk a, String.mk b, String.mk c, ?_⟩
        simp [ParseID, hsp, hp]
      · left; simp [ParseID, hsp, hp]
    · left; simp [ParseID, hsp]
  · intro id p t r
    constructor
    · intro h
      rcases hsp : splitColon id.data with _ | ⟨a, _ | ⟨b, _ | ⟨c, _ | ⟨d, rest⟩⟩⟩⟩
      · simp [ParseID, hsp] at h
      · simp [ParseID, hsp] at h
      · simp [ParseID, hsp] at h
      · by_cases hp : String.mk a = "ptd"
        · simp only [ParseID, hsp] at h
          rw [if_neg (by simp [hp])] at h
          simp only [Except.ok.injEq, Prod.mk.injEq] at h
          obtain ⟨h1, h2, h3⟩ := h
          subst h1
          subst h2
          subst h3
          exact ⟨rfl, hp⟩

        · simp [ParseID, hsp, hp] at h
      · simp [ParseID, hsp] at h
    · rintro ⟨hsp, rfl⟩
      simp [ParseID, hsp]
  · intro T st now fresh incr hT hnow hfresh hincr
    have hv := genStep_value_lt st now fresh incr hnow hfresh hincr
    refine ⟨String.mk ((ulidChars (genStep st now fresh incr).1).map toLowerChar),
      ?_, isULID_lower _ hv⟩
    have hraw : ∀ c ∈ (String.mk
        ((ulidChars (genStep st now fresh incr).1).map toLowerChar)).data,
        c ≠ ':' := by
      intro c hc
      obtain ⟨c0, hc0, rfl⟩ := List.mem_map.mp hc
      obtain ⟨d, hd, rfl⟩ :=
        b32EncodeWith_mem crockfordChar 26 (genStep st now fresh incr).1 c0 hc0
      exact crockfordLower_ne_colon d hd
    exact ParseID_build T _ hT hraw

/-- Witness for C8 at a concrete entity type and a concrete generator
call. -/
theorem parse_contract_roundtrip_witness :
    (∀ c ∈ ("match" : String).data, c ≠ ':') ∧
    ((42 : Nat) < 2 ^ 48) ∧ ((7 : Nat) < 2 ^ 80) ∧
    (initGenState.lastEntropy + 1 < 2 ^ 80) ∧
    (∃ raw : String,
      ParseID (GenerateID initGenState "match" 42 7 1).1 =
        .ok ("ptd", "match", raw) ∧
      IsULID raw = true) :=
  ⟨by decide, by decide, by decide, by decide,
   parse_contract_roundtrip.2.2 "match" initGenState 42 7 1 (by decide)
     (by decide) (by decide) (by decide)⟩

/-! ## Helper lemmas: base64 decoding of corrupted text -/

/-- Decoding a full quantum of alphabet characters followed by nothing. -/
theorem b64DecodeChars_quantum_nil (c0 c1 c2 c3 : Char) (d0 d1 d2 d3 : Nat)
    (h0 : b64DecChar c0 = some d0) (h1 : b64DecChar c1 = some d1)
    (h2 : b64DecChar c2 = some d2) (h3 : b64DecChar c3 = some d3)
    (hc2 : c2 ≠ '=') (hc3 : c3 ≠ '=') :
    b64DecodeChars [c0, c1, c2, c3] =
      some [d0 * 4 + d1 / 16, d1 % 16 * 16 + d2 / 4, d2 % 4 * 64 + d3] := by
  simp [b64DecodeChars, h0, h1, h2, h3, hc2, hc3]

/-- Decoding a full quantum of alphabet characters followed by more
input. -/
theorem b64DecodeChars_quantum_cons (c0 c1 c2 c3 : Char) (d0 d1 d2 d3 : Nat)
    (h0 : b64DecChar c0 = some d0) (h1 : b64DecChar c1 = some d1)
    (h2 : b64DecChar c2 = some d2) (h3 : b64DecChar c3 = some d3)
    (hc2 : c2 ≠ '=') (hc3 : c3 ≠ '=') (rest : List Char) :
    b64DecodeChars (c0 :: c1 :: c2 :: c3 :: rest) =
      (b64DecodeChars rest).map
        (fun bs => (d0 * 4 + d1 / 16) :: (d1 % 16 * 16 + d2 / 4) ::
          (d2 % 4 * 64 + d3) :: bs) := by
  simp only [b64DecodeChars, h0, h1, h2, h3, if_neg hc2, if_neg hc3]
  cases b64DecodeChars rest <;> rfl

/-- Decoding a final quantum ending in one padding character. -/
theorem b64DecodeChars_one_pad (c0 c1 c2 : Char) (d0 d1 d2 : Nat)
    (h0 : b64DecChar c0 = some d0) (h1 : b64DecChar c1 = some d1)
    (h2 : b64DecChar c2 = some d2) (hc2 : c2 ≠ '=') :
    b64DecodeChars [c0, c1, c2, '='] =
      some [d0 * 4 + d1 / 16, d1 % 16 * 16 + d2 / 4] := by
  simp [b64DecodeChars, h0, h1, h2, hc2]

/-- A quantum with a padding character in third place and a non-padding
final character never decodes. -/
theorem b64DecodeChars_pad_bad (c0 c1 c3 : Char) (hc3 : c3 ≠ '=') :
    b64DecodeChars [c0, c1, '=', c3] = none := by
  rcases h0 : b64DecChar c0 with _ | d0 <;> rcases h1 : b64DecChar c1 with _ | d1 <;>
    simp [b64DecodeChars, h0, h1, hc3]

/-- A final quantum whose last character is outside the alphabet and not
padding never decodes. -/
theorem b64DecodeChars_last_bad (c0 c1 c2 cc : Char) (d2 : Nat)
    (h2 : b64DecChar c2 = some d2) (hc2 : c2 ≠ '=') (hcc : cc ≠ '=')
    (hdc : b64DecChar cc = none) :
    b64DecodeChars [c0, c1, c2, cc] = none := by
  rcases h0 : b64DecChar c0 with _ | d0 <;> rcases h1 : b64DecChar c1 with _ | d1 <;>
    simp [b64DecodeChars, h0, h1, h2, hc2, hcc, hdc]

/-- Base64 encoding of a nonempty byte list is nonempty. -/
theorem b64Encode_ne_nil : ∀ bs : List Nat, bs ≠ [] → b64Encode bs ≠ []
  | [], h => absurd rfl h
  | [_], _ => by simp [b64Encode]
  | [_, _], _ => by simp [b64Encode]
  | _ :: _ :: _ :: _, _ => by simp [b64Encode]

/-- Decoding the base64 text of an encoded nonempty byte list after its
last character has been replaced by a different character either fails,
or yields a byte list that differs from the original in its length or in
its last byte. -/
theorem b64_decode_corrupt : ∀ bs : List Nat, (∀ x ∈ bs, x < 256) → bs ≠ [] →
    ∀ cc : Char, cc ≠ (b64Encode bs).getLastD '=' →
    b64DecodeChars ((b64Encode bs).dropLast ++ [cc]) = none ∨
    ∃ bs2, b64DecodeChars ((b64Encode bs).dropLast ++ [cc]) = some bs2 ∧
      (bs2.length ≠ bs.length ∨ bs2.getLast? ≠ bs.getLast?)
  | [], _, hne, _, _ => absurd rfl hne
  | [a], _, _, cc, hcc => by
    have hlast : (b64Encode [a]).getLastD '=' = '=' := by simp [b64Encode]
    rw [hlast] at hcc
    have hdl : (b64Encode [a]).dropLast ++ [cc] =
        [b64Char (a / 4), b64Char (a % 4 * 16), '=', cc] := by
      simp [b64Encode]
    rw [hdl]
    exact Or.inl (b64DecodeChars_pad_bad _ _ cc hcc)
  | [a, b], h, _, cc, hcc => by
    have ha : a < 256 := h a (by simp)
    have hb : b < 256 := h b (by simp)
    have h0 := b64DecChar_b64Char (a / 4) (by omega)
    have h1 := b64DecChar_b64Char (a % 4 * 16 + b / 16) (by omega)
    have h2 := b64DecChar_b64Char (b % 16 * 4) (by omega)
    have hne2 := b64Char_ne_pad (b % 16 * 4) (by omega)
    have hlast : (b64Encode [a, b]).getLastD '=' = '=' := by simp [b64Encode]
    rw [hlast] at hcc
    have hdl : (b64Encode [a, b]).dropLast ++ [cc] =
        [b64Char (a / 4), b64Char (a % 4 * 16 + b / 16), b64Char (b % 16 * 4), cc] := by
      simp [b64Encode]
    rw [hdl]
    rcases hdc : b64DecChar cc with _ | dc
    · exact Or.inl (b64DecodeChars_last_bad _ _ _ cc _ h2 hne2 hcc hdc)
    · right
      refine ⟨_, b64DecodeChars_quantum_nil _ _ _ cc _ _ _ _ h0 h1 h2 hdc hne2 hcc, ?_⟩
      left
      simp
  | [a, b, c], h, _, cc, hcc => by
    have ha : a < 256 := h a (by simp)
    have hb : b < 256 := h b (by simp)
    have hc : c < 256 := h c (by simp)
    have h0 := b64DecChar_b64Char (a / 4) (by omega)
    have h1 := b64DecChar_b64Char (a % 4 * 16 + b / 16) (by omega)
    have h2 := b64DecChar_b64Char (b % 16 * 4 + c / 64) (by omega)
    have h3 := b64DecChar_b64Char (c % 64) (by omega)
    have hne2 := b64Char_ne_pad (b % 16 * 4 + c / 64) (by omega)
    have hne3 := b64Char_ne_pad (c % 64) (by omega)
    have hlast : (b64Encode [a, b, c]).getLastD '=' = b64Char (c % 64) := by
      simp [b64Encode]
    rw [hlast] at hcc
    have hdl : (b64Encode [a, b, c]).dropLast ++ [cc] =
        [b64Char (a / 4), b64Char (a % 4 * 16 + b / 16),
         b64Char (b % 16 * 4 + c / 64), cc] := by
      simp [b64Encode]
    rw [hdl]
    by_cases hpad : cc = '='
    · subst hpad
      right
      refine ⟨_, b64DecodeChars_one_pad _ _ _ _ _ _ h0 h1 h2 hne2, ?_⟩
      left
      simp
    · rcases hdc : b64DecChar cc with _ | dc
      · exact Or.inl (b64DecodeChars_last_bad _ _ _ cc _ h2 hne2 hpad hdc)
      · right
        refine ⟨_, b64DecodeChars_quantum_nil _ _ _ cc _ _ _ _ h0 h1 h2 hdc hne2 hpad, ?_⟩
        right
        simp only [List.getLast?_cons_cons, List.getLast?_singleton, ne_eq,
          Option.some.injEq]
        intro heq
        have hd2 : (b % 16 * 4 + c / 64) % 4 * 64 + dc = c := heq
        have hdcv : dc = c % 64 := by omega
        have := b64DecChar_inj cc (c % 64) (hdcv ▸ hdc)
        exact hcc this
  | a :: b :: c :: r :: rs, h, _, cc, hcc => by
    have ha : a < 256 := h a (by simp)
    have hb : b < 256 := h b (by simp)
    have hc : c < 256 := h c (by simp)
    have h0 := b64DecChar_b64Char (a / 4) (by omega)
    have h1 := b64DecChar_b64Char (a % 4 * 16 + b / 16) (by omega)
    have h2 := b64DecChar_b64Char (b % 16 * 4 + c / 64) (by omega)
    have h3 := b64DecChar_b64Char (c % 64) (by omega)
    have hne2 := b64Char_ne_pad (b % 16 * 4 + c / 64) (by omega)
    have hne3 := b64Char_ne_pad (c % 64) (by omega)
    have htail : b64Encode (r :: rs) ≠ [] := b64Encode_ne_nil _ (by simp)
    have henc : b64Encode (a :: b :: c :: r :: rs) =
        [b64Char (a / 4), b64Char (a % 4 * 16 + b / 16),
         b64Char (b % 16 * 4 + c / 64), b64Char (c % 64)] ++ b64Encode (r :: rs) := rfl
    have hlast : (b64Encode (a :: b :: c :: r :: rs)).getLastD '=' =
        (b64Encode (r :: rs)).getLastD '=' := by
      rw [henc, List.getLastD_eq_getLast?, List.getLastD_eq_getLast?,
        List.getLast?_append_of_ne_nil _ htail]
    rw [hlast] at hcc
    have hdl : (b64Encode (a :: b :: c :: r :: rs)).dropLast ++ [cc] =
        b64Char (a / 4) :: b64Char (a % 4 * 16 + b / 16) ::
        b64Char (b % 16 * 4 + c / 64) :: b64Char (c % 64) ::
        ((b64Encode (r :: rs)).dropLast ++ [cc]) := by
      rw [henc, List.dropLast_append_of_ne_nil _ htail, List.append_assoc]
      rfl
    rw [hdl, b64DecodeChars_quantum_cons _ _ _ _ _ _ _ _ h0 h1 h2 h3 hne2 hne3]
    have hrec := b64_decode_corrupt (r :: rs)
      (fun x hx => h x (by simp [hx])) (by simp) cc hcc
    rcases hrec with hnone | ⟨bs2, hsome, hdiff⟩
    · rw [hnone]
      exact Or.inl rfl
    · rw [hsome]
      right
      refine ⟨_, rfl, ?_⟩
      rcases hdiff with hlen | hlastne
      · left
        simp only [List.length_cons]
        simp only [List.length_cons] at hlen ⊢
        omega
      · rcases hbs2 : bs2 with _ | ⟨x, xs⟩
        · left
          subst hbs2
          simp
        · right
          rw [← hbs2]
          have hb2ne : bs2 ≠ [] := by rw [hbs2]; simp
          have e1 : ((a / 4 * 4 + (a % 4 * 16 + b / 16) / 16) ::
              ((a % 4 * 16 + b / 16) % 16 * 16 + (b % 16 * 4 + c / 64) / 4) ::
              ((b % 16 * 4 + c / 64) % 4 * 64 + c % 64) :: bs2).getLast? =
              bs2.getLast? := by
            have : ((a / 4 * 4 + (a % 4 * 16 + b / 16) / 16) ::
                ((a % 4 * 16 + b / 16) % 16 * 16 + (b % 16 * 4 + c / 64) / 4) ::
                ((b % 16 * 4 + c / 64) % 4 * 64 + c % 64) :: bs2) =
                [a / 4 * 4 + (a % 4 * 16 + b / 16) / 16,
                 (a % 4 * 16 + b / 16) % 16 * 16 + (b % 16 * 4 + c / 64) / 4,
                 (b % 16 * 4 + c / 64) % 4 * 64 + c % 64] ++ bs2 := rfl
            rw [this, List.getLast?_append_of_ne_nil _ hb2ne]
          have e2 : (a :: b :: c :: r :: rs).getLast? = (r :: rs).getLast? := by
            have : (a :: b :: c :: r :: rs) = [a, b, c] ++ (r :: rs) := rfl
            rw [this, List.getLast?_append_of_ne_nil _ (by simp)]
          rw [e1, e2]
          exact hlastne

/-- UTF-8 encoding of a character is nonempty. -/
theorem utf8Bytes_ne_nil (c : Char) : utf8Bytes c ≠ [] := by
  intro hcon
  simp only [utf8Bytes] at hcon
  split_ifs at hcon <;> simp at hcon

/-- The byte content of the canonical JSON of an envelope is nonempty. -/
theorem strBytes_canonicalJSON_ne_nil (e : Envelope) :
    strBytes e.canonicalJSON ≠ [] := by
  have hlen : 0 < (Envelope.canonicalJSON e).length := by
    have h6 : ("\x7b\"id\":" : String).length = 6 := rfl
    simp only [Envelope.canonicalJSON, jsonEnvelope, String.length_append, h6]
    omega
  have hdata : (Envelope.canonicalJSON e).data ≠ [] := by
    intro hn
    rw [show (Envelope.canonicalJSON e).length =
      (Envelope.canonicalJSON e).data.length from rfl, hn] at hlen
    simp at hlen
  cases hd : (Envelope.canonicalJSON e).data with
  | nil => exact absurd hd hdata
  | cons c rest =>
    rw [strBytes, hd]
    simp only [List.map_cons, List.flatten_cons, ne_eq, List.append_eq_nil]
    intro hcon
    exact utf8Bytes_ne_nil c hcon.1

/-- C6.  Verify error taxonomy: for a signed envelope, Verify fails with
SignatureInvalid exactly when the stored signature string is not valid
base64, and with SignatureFailed exactly when the string decodes but the
cryptographic check of the decoded bytes against the recomputed canonical
bytes fails; in particular, after replacing the last character of the
attached base64 signature string of a freshly signed envelope by any
other character, verification fails with SignatureInvalid or
SignatureFailed under every public key. -/
theorem verify_error_taxonomy :
    (∀ (e : Envelope) (pub : Nat) (sig : Signature),
       e.meta.signature = some sig →
       ((verify e pub = .error .signatureInvalid ↔
           b64Decode sig.signature = none) ∧
        (verify e pub = .error .signatureFailed ↔
           ∃ bs, b64Decode sig.signature = some bs ∧
             ed25519Verify pub e.canonicalJSON bs = false))) ∧
    (∀ (k : Signer) (now : String) (e : Envelope) (pub : Nat) (cc : Char),
       cc ≠ (b64Encode (ed25519Sign k.seed e.canonicalJSON)).getLastD '=' →
       verify (corruptSigLast (k.sign now e) cc) pub = .error .signatureInvalid ∨
       verify (corruptSigLast (k.sign now e) cc) pub = .error .signatureFailed) := by
  constructor
  · intro e pub sig hsig
    simp only [verify, extractSignature, hsig]
    cases hdec : b64Decode sig.signature with
    | none =>
      constructor
      · simp
      · constructor
        · intro h
          simp at h
        · rintro ⟨bs, hbs, _⟩
          simp at hbs
    | some bs =>
      dsimp only
      by_cases hv : ed25519Verify pub e.canonicalJSON bs = true
      · rw [if_pos hv]
        constructor
        · constructor
          · intro h
            simp at h
          · intro h
            simp at h
        · constructor
          · intro h
            simp at h
          · rintro ⟨bs2, hbs2, hfalse⟩
            obtain rfl := Option.some.inj hbs2
            rw [hv] at hfalse
            simp at hfalse
      · rw [if_neg hv]
        constructor
        · constructor
          · intro h
            simp at h
          · intro h
            simp at h
        · constructor
          · intro _
            exact ⟨bs, rfl, by simpa using hv⟩
          · intro _
            rfl
  · intro k now e pub cc hcc
    have hblt : ∀ x ∈ ed25519Sign k.seed e.canonicalJSON, x < 256 :=
      ed25519Sign_lt _ _
    have hbne : ed25519Sign k.seed e.canonicalJSON ≠ [] := by
      have : (ed25519Sign k.seed e.canonicalJSON).length =
          32 + (strBytes e.canonicalJSON).length := by
        simp [ed25519Sign, keyBytes, natToBytesLE_length]
      intro hn
      rw [hn] at this
      simp only [List.length_nil] at this
      omega
    have hext : extractSignature (corruptSigLast (k.sign now e) cc) =
        some (Signature.mk "ed25519" k.publicKeyID
          (String.mk ((b64Encode (ed25519Sign k.seed e.canonicalJSON)).dropLast
            ++ [cc])) now k.signedBy) := rfl
    have hcanon : (corruptSigLast (k.sign now e) cc).canonicalJSON =
        e.canonicalJSON := by
      show (withSignature e (Signature.mk "ed25519" k.publicKeyID
          (String.mk ((b64Encode (ed25519Sign k.seed e.canonicalJSON)).dropLast
            ++ [cc])) now k.signedBy)).canonicalJSON = e.canonicalJSON
      rw [canonicalJSON_withSignature, canonicalJSON_withoutSignature]
    simp only [verify, hext, hcanon]
    rcases b64_decode_corrupt (ed25519Sign k.seed e.canonicalJSON) hblt hbne cc hcc
      with hdec | ⟨bs2, hdec, hdiff⟩
    · left
      rw [show b64Decode (String.mk
          ((b64Encode (ed25519Sign k.seed e.canonicalJSON)).dropLast ++ [cc])) =
          b64DecodeChars
            ((b64Encode (ed25519Sign k.seed e.canonicalJSON)).dropLast ++ [cc])
          from rfl, hdec]
    · right
      rw [show b64Decode (String.mk
          ((b64Encode (ed25519Sign k.seed e.canonicalJSON)).dropLast ++ [cc])) =
          b64DecodeChars
            ((b64Encode (ed25519Sign k.seed e.canonicalJSON)).dropLast ++ [cc])
          from rfl, hdec]
      have hne : bs2 ≠ ed25519Sign pub e.canonicalJSON := by
        have hmsgne : strBytes e.canonicalJSON ≠ [] :=
          strBytes_canonicalJSON_ne_nil e
        rcases hdiff with hlen | hlastne
        · intro heq
          apply hlen
          rw [heq]
          simp [ed25519Sign, keyBytes, natToBytesLE_length]
        · intro heq
          apply hlastne
          rw [heq]
          show (keyBytes pub ++ strBytes e.canonicalJSON).getLast? =
            (keyBytes k.seed ++ strBytes e.canonicalJSON).getLast?
          rw [List.getLast?_append_of_ne_nil _ hmsgne,
            List.getLast?_append_of_ne_nil _ hmsgne]
      have hfalse : ed25519Verify pub e.canonicalJSON bs2 = false := by
        simp only [ed25519Verify, beq_eq_false_iff_ne, ne_eq]
        exact hne
      dsimp only
      rw [if_neg (by simp [hfalse])]

/-- Witness for C6 at a concrete signed envelope, with the last
character of its base64 signature replaced by a character outside the
alphabet. -/
theorem verify_error_taxonomy_witness :
    (wit6Envelope.meta.signature = some wit6Sig) ∧
    ((verify wit6Envelope 9 = .error .signatureInvalid ↔
        b64Decode wit6Sig.signature = none) ∧
     (verify wit6Envelope 9 = .error .signatureFailed ↔
        ∃ bs, b64Decode wit6Sig.signature = some bs ∧
          ed25519Verify 9 wit6Envelope.canonicalJSON bs = false)) ∧
    ('\x01' ≠ (b64Encode
        (ed25519Sign wit6Signer.seed sampleEnvelope.canonicalJSON)).getLastD '=') ∧
    (verify (corruptSigLast (wit6Signer.sign "t6" sampleEnvelope) '\x01') 9 =
       .error .signatureInvalid ∨
     verify (corruptSigLast (wit6Signer.sign "t6" sampleEnvelope) '\x01') 9 =
       .error .signatureFailed) :=
  ⟨rfl, verify_error_taxonomy.1 wit6Envelope 9 wit6Sig rfl,
   by decide,
   verify_error_taxonomy.2 wit6Signer "t6" sampleEnvelope 9 '\x01' (by decide)⟩

end Ptd
